import Mathlib

/-!
# Verification of the BigML local `Fusion` prediction engine

A shallow embedding of `bigml/fusion.py`: the construction-time helpers
(`get_models_weight`, the `models_splits` batching), the vote-aggregation
pipeline of `Fusion.predict_probability` / `Fusion.predict_confidence`,
the prediction selection of `Fusion._predict` and `Fusion.predict_operating`,
and the attribute-dictionary mutation performed by `Fusion.dump` / `dumps`.

Conventions of the embedding:

* Python floats are modelled as exact rationals (`ℚ`).
* A fallible Python computation is modelled in `Except PyErr`; the error kind
  records which exception class was raised, because `fusion.py` catches
  `ValueError` (and in one place `KeyError`) selectively.
* A member model is an opaque collaborator: for the one input row a claim
  talks about, all the aggregator can observe is the member's class list and
  the outcome of its `predict_probability` / `predict_confidence` calls, so a
  member is embedded as that observation record (`Member`), and the
  instantiation `SupervisedModel(model_id, api=...)` / `Fusion(model_id, ...)`
  performed inside the prediction loops is a function `loader` from ids to
  members.  The `resource_id` of a model instantiated from `model_id` is
  `model_id` itself, so weight lookups `self.model_ids.index(model.resource_id)`
  are embedded as lookups of the id the loop is visiting.
* Code of the repository that `fusion.py` calls but that does not live in
  `src/` (`MultiVoteList.combine_to_distribution`, `sort_categories`,
  `parse_operating_point`, the `DECIMALS` constant) is modelled from the
  spec; each such definition is marked `Modelled from the spec:`.
-/

namespace BigMLFusion

/-- Kind of Python exception raised by a fallible step.  `fusion.py` catches
`ValueError` around member probability calls and `KeyError` inside
`get_models_weight`; every other exception class is collapsed into
`otherError` (the code never catches those selectively, except for the
catch-all `except Exception` around member confidence calls). -/
inductive PyErr where
  | valueError
  | keyError
  | otherError
deriving DecidableEq, Repr

/-- The observable behaviour, on one fixed input row, of one member model as
used by the aggregation loops: its `class_names` attribute, the outcome of
`model.predict_probability(input_data, compact=True, ...)` (a compact vector
for classification members, a one-element list for regression members), and
the outcome of `model.predict_confidence(input_data, compact=False, ...)`
(a list of category/confidence pairs for classification members). -/
structure Member where
  class_names : List String
  probOutput : Except PyErr (List ℚ)
  confOutput : Except PyErr (List (String × ℚ))

/-- The `Fusion` attributes consumed by the prediction paths under
verification.  `class_names` is the sorted category list of the objective
field, `objective_categories` the raw (pre-sort) category list; the
`regression` flag is represented by which of the `...Classif` / `...Reg`
functions below applies (they are the two branches of the corresponding
Python methods under `self.regression`). -/
structure Fusion where
  model_ids : List String
  weights : List ℚ
  class_names : List String
  objective_categories : List String
  models_splits : List (List String)

/-- `rearrange_prediction(origin_classes, destination_classes, prediction)`:
for every destination class, take the prediction value at the index of that
class in `origin_classes` when present (the `try` branch; an out-of-range
index is an uncaught `IndexError`) and `0.0` otherwise (the
`except ValueError` branch). -/
def rearrange_prediction (origin_classes destination_classes : List String)
    (prediction : List ℚ) : Except PyErr (List ℚ) :=
  destination_classes.mapM (fun class_name =>
    match origin_classes.indexOf? class_name with
    | some origin_index =>
        if h : origin_index < prediction.length then
          Except.ok prediction[origin_index]
        else
          Except.error PyErr.otherError
    | none => Except.ok 0)

/-- One entry of the raw `models` declaration handed to `get_models_weight`:
either a bare identifier or a record (Python dict) whose `id` and `weight`
keys may each be present or absent. -/
inductive ModelsEntry where
  | bare (id : String)
  | record (id : Option String) (weight : Option ℚ)
deriving DecidableEq, Repr

/-- Whether `isinstance(model_info, dict)` holds for an entry. -/
def ModelsEntry.isRecord : ModelsEntry → Bool
  | .bare _ => false
  | .record _ _ => true

/-- `[model["id"] for model in models_info]`: Python evaluates left to right;
a record without an `id` key raises `KeyError`, a bare (string) entry raises
`TypeError` (string indices must be integers), embedded as `otherError`. -/
def extractIds : List ModelsEntry → Except PyErr (List String)
  | [] => Except.ok []
  | ModelsEntry.record (some i) _ :: rest => (extractIds rest).map (i :: ·)
  | ModelsEntry.record none _ :: _ => Except.error PyErr.keyError
  | ModelsEntry.bare _ :: _ => Except.error PyErr.otherError

/-- `[model["weight"] for model in models_info]`, with the same error
behaviour as `extractIds`. -/
def extractWeights : List ModelsEntry → Except PyErr (List ℚ)
  | [] => Except.ok []
  | ModelsEntry.record _ (some w) :: rest => (extractWeights rest).map (w :: ·)
  | ModelsEntry.record _ none :: _ => Except.error PyErr.keyError
  | ModelsEntry.bare _ :: _ => Except.error PyErr.otherError

/-- The identifier an entry contributes when the first entry is *not* a dict:
in that branch Python assigns `model_ids = models_info` verbatim.  In the
homogeneous bare case (the only one the claims quantify over) this is the
string itself; for a record in a mixed list Python would pass the raw dict
through (to be rejected later by the member-type validation), which this
string-typed embedding represents by the record's id if any, else `""`. -/
def ModelsEntry.asId : ModelsEntry → String
  | .bare i => i
  | .record i _ => i.getD ""

/-- Whether the entry carries an `id` key (bare identifiers trivially do). -/
def ModelsEntry.hasId : ModelsEntry → Bool
  | .bare _ => true
  | .record i _ => i.isSome

/-- Whether the entry carries a `weight` key. -/
def ModelsEntry.hasWeight : ModelsEntry → Bool
  | .bare _ => false
  | .record _ w => w.isSome

/-- `get_models_weight(models_info)`.  An empty list raises `IndexError` at
`models_info[0]`, which the surrounding `except KeyError` does not catch.
If the first entry is a dict: a missing `id` key (`KeyError`) is converted to
`ValueError("... does not contain the model ids")`; a missing `weight` key
makes `weights = None`, later defaulted to `[1] * len(model_ids)`.
Otherwise `model_ids` is the given list and all weights default to `1`. -/
def get_models_weight (models_info : List ModelsEntry) :
    Except PyErr (List String × List ℚ) :=
  match models_info with
  | [] => Except.error PyErr.otherError
  | first :: _ =>
    if first.isRecord then
      match extractIds models_info with
      | Except.error PyErr.keyError => Except.error PyErr.valueError
      | Except.error e => Except.error e
      | Except.ok model_ids =>
        match extractWeights models_info with
        | Except.error PyErr.keyError =>
            Except.ok (model_ids, List.replicate model_ids.length 1)
        | Except.error e => Except.error e
        | Except.ok weights => Except.ok (model_ids, weights)
    else
      Except.ok (models_info.map ModelsEntry.asId,
                 List.replicate models_info.length 1)

/-- The `models_splits` computation in `Fusion.__init__`:
`[self.model_ids]` when `max_models is None`, otherwise
`[model_ids[index:index+max_models] for index in range(0, n, max_models)]`.
`range(0, n, 0)` raises `ValueError`; a negative step yields an empty range
(hence no batches at all).  For a positive step `m`, `range(0, n, m)` is
`0, m, 2m, ...` with `⌈n/m⌉ = (n + m - 1) / m` elements, and the slice
`model_ids[i:i+m]` is `(model_ids.drop i).take m`. -/
def buildSplits (model_ids : List String) (max_models : Option ℤ) :
    Except PyErr (List (List String)) :=
  match max_models with
  | none => Except.ok [model_ids]
  | some m =>
    if m = 0 then Except.error PyErr.valueError
    else if m < 0 then Except.ok []
    else
      let mn := m.toNat
      Except.ok ((List.range ((model_ids.length + mn - 1) / mn)).map
        (fun k => (model_ids.drop (k * mn)).take mn))

/-- `self.weights[self.model_ids.index(model_id)]`: the weight at the *first*
index of `model_id` in `model_ids`.  `list.index` on an absent id raises
`ValueError`; the prediction loops only look up ids they are iterating over,
and the theorems below carry the corresponding membership hypotheses, so the
lookup is totalised with default `0`. -/
def modelWeight (F : Fusion) (model_id : String) : ℚ :=
  F.weights.getD (F.model_ids.indexOf model_id) 0

/-- `Fusion.weigh` on a list prediction: every probability is multiplied by
the model's weight. -/
def weigh (F : Fusion) (prediction : List ℚ) (model_id : String) : List ℚ :=
  prediction.map (· * modelWeight F model_id)

/-- `Fusion.weigh` on a scalar prediction (the `else` branch of the
`isinstance(prediction, list)` test). -/
def weighScalar (F : Fusion) (prediction : ℚ) (model_id : String) : ℚ :=
  prediction * modelWeight F model_id

/-- One iteration of the member loop of `Fusion.predict_probability` for a
classification fusion (`self.regression` false): call the member's
`predict_probability` (only `ValueError` is caught, by `continue`; any other
exception propagates), record the member's weight, weigh the vector, and
re-project it onto the fusion's class order when the class lists differ.
Returns `none` for a skipped member and `some (vote, weight)` otherwise.

The `except AttributeError: pass` around the re-projection guards against a
member without a `class_names` attribute; members in this embedding always
carry one, so that branch is dead here. -/
def classifVote (F : Fusion) (loader : String → Member) (model_id : String) :
    Except PyErr (Option (List ℚ × ℚ)) :=
  let m := loader model_id
  match m.probOutput with
  | Except.error PyErr.valueError => Except.ok none
  | Except.error e => Except.error e
  | Except.ok prediction =>
    let w := modelWeight F model_id
    let weighted := weigh F prediction model_id
    if F.class_names ≠ m.class_names then
      match rearrange_prediction m.class_names F.class_names weighted with
      | Except.error e => Except.error e
      | Except.ok p => Except.ok (some (p, w))
    else
      Except.ok (some (weighted, w))

/-- The inner member loop of `Fusion.predict_probability` over one batch
(classification): builds this batch's `votes_split` and appends the
contributing members' weights to the global `weights` accumulator. -/
def splitVotesClassif (F : Fusion) (loader : String → Member)
    (split : List String) (weights : List ℚ) :
    Except PyErr (List (List ℚ) × List ℚ) :=
  split.foldlM
    (fun acc model_id => do
      match ← classifVote F loader model_id with
      | none => pure acc
      | some (p, w) => pure (acc.1 ++ [p], acc.2 ++ [w]))
    ([], weights)

/-- The batch loop of `Fusion.predict_probability` (classification):
`votes.extend(votes_split)` after each batch, `weights` accumulated across
batches.  Returns the final `votes.predictions` list and `weights` list. -/
def collectClassifVotes (F : Fusion) (loader : String → Member) :
    Except PyErr (List (List ℚ) × List ℚ) :=
  F.models_splits.foldlM
    (fun acc split => do
      let (votes_split, ws) ← splitVotesClassif F loader split acc.2
      pure (acc.1 ++ votes_split, ws))
    ([], [])

/-- One iteration of the member loop of `Fusion.predict_probability` for a
regression fusion: after the member call, `prediction = prediction[0]`
(an `IndexError` on an empty list would propagate), then the scalar is
weighed. -/
def regVote (F : Fusion) (loader : String → Member) (model_id : String) :
    Except PyErr (Option (ℚ × ℚ)) :=
  let m := loader model_id
  match m.probOutput with
  | Except.error PyErr.valueError => Except.ok none
  | Except.error e => Except.error e
  | Except.ok prediction =>
    match prediction with
    | [] => Except.error PyErr.otherError
    | p :: _ =>
      let w := modelWeight F model_id
      Except.ok (some (weighScalar F p model_id, w))

/-- The inner member loop of `Fusion.predict_probability` over one batch
(regression). -/
def splitVotesReg (F : Fusion) (loader : String → Member)
    (split : List String) (weights : List ℚ) :
    Except PyErr (List ℚ × List ℚ) :=
  split.foldlM
    (fun acc model_id => do
      match ← regVote F loader model_id with
      | none => pure acc
      | some (p, w) => pure (acc.1 ++ [p], acc.2 ++ [w]))
    ([], weights)

/-- The batch loop of `Fusion.predict_probability` (regression). -/
def collectRegVotes (F : Fusion) (loader : String → Member) :
    Except PyErr (List ℚ × List ℚ) :=
  F.models_splits.foldlM
    (fun acc split => do
      let (votes_split, ws) ← splitVotesReg F loader split acc.2
      pure (acc.1 ++ votes_split, ws))
    ([], [])

/-- Modelled from the spec: `MultiVoteList.combine_to_distribution` (module
`bigml/multivotelist.py`, not under `src/`), used with `normalize=True`:
"Accumulate all weighted (and reprojected) vectors.  Classification:
normalize the summed vector so components sum to 1."  `n` is the number of
canonical classes; every vote the classification loop produces has that
length.  Rational division totalises `x / 0 = 0` where Python would raise
`ZeroDivisionError`; the theorems below only evaluate this function where the
normalising total is nonzero. -/
def combine_to_distribution (n : ℕ) (votes : List (List ℚ)) : List ℚ :=
  let sums := (List.range n).map (fun i => (votes.map (fun v => v.getD i 0)).sum)
  let total := sums.sum
  sums.map (· / total)

/-- `Fusion.predict_probability` for a classification fusion with
`compact=False`: the combined distribution zipped with the sorted canonical
class names into category/probability records. -/
def predict_probability_classif (F : Fusion) (loader : String → Member) :
    Except PyErr (List (String × ℚ)) := do
  let (votes, _weights) ← collectClassifVotes F loader
  let output := combine_to_distribution F.class_names.length votes
  pure (F.class_names.zip output)

/-- `Fusion.predict_probability` for a regression fusion with
`compact=True`: the one-element list holding the accumulated weighted sum,
divided by the total contributing weight when that total is positive. -/
def predict_probability_reg (F : Fusion) (loader : String → Member) :
    Except PyErr (List ℚ) := do
  let (votes, weights) ← collectRegVotes F loader
  let prediction := votes.sum
  let total_weight := weights.sum
  pure [if total_weight > 0 then prediction / total_weight else prediction]

/-- One iteration of the member loop of `Fusion.predict_confidence`
(classification): the member call sits under `except Exception`, so *every*
member failure is swallowed by `continue`; on success the prediction and the
member's weight are appended. -/
def confVote (F : Fusion) (loader : String → Member) (model_id : String) :
    Option (List (String × ℚ) × ℚ) :=
  match (loader model_id).confOutput with
  | Except.error _ => none
  | Except.ok prediction => some (prediction, modelWeight F model_id)

/-- The batch/member loops of `Fusion.predict_confidence` (classification):
no error can surface, so the result type is plain.  (Inside the loop the
regression branch rebinds the local `prediction` variable; that rebinding
does not affect the accumulated `predictions` list.) -/
def collectConfVotes (F : Fusion) (loader : String → Member) :
    List (List (String × ℚ)) × List ℚ :=
  F.models_splits.foldl
    (fun acc split =>
      split.foldl
        (fun acc model_id =>
          match confVote F loader model_id with
          | none => acc
          | some (p, w) => (acc.1 ++ [p], acc.2 ++ [w]))
        acc)
    ([], [])

/-- Modelled from the spec: the library constant `DECIMALS`
(`bigml/constants.py`, not under `src/`), the decimal precision confidences
are rounded to.  The spec does not pin its value; the claims below do not
depend on it. -/
def DECIMALS : ℕ := 5

/-- Rounding to `d` decimal places, as applied by `round(x, DECIMALS)`.
(Python rounds half to even; the claims below never compare values at a
rounding tie, so the half-rounding direction is immaterial.) -/
def roundDec (d : ℕ) (x : ℚ) : ℚ := (round (x * 10 ^ d) : ℤ) / 10 ^ d

/-- The per-member confidence looked up by `Fusion._combine_confidences` for
one class: the first category record matching the class name contributes its
confidence (the inner loop `break`s at the first match), an absent class
contributes nothing. -/
def memberConfFor (prediction : List (String × ℚ)) (class_name : String) : ℚ :=
  match prediction.find? (fun ci => ci.1 = class_name) with
  | some ci => ci.2
  | none => 0

/-- `Fusion._combine_confidences(predictions)`: for every canonical class,
the sum of the members' confidences for that class divided by the number of
contributing members (an unweighted mean), rounded to `DECIMALS` places.
Rational division totalises the empty-`predictions` case where Python would
raise `ZeroDivisionError`. -/
def combine_confidences (F : Fusion)
    (predictions : List (List (String × ℚ))) : List ℚ :=
  F.class_names.map (fun class_name =>
    roundDec DECIMALS
      ((predictions.map (fun p => memberConfFor p class_name)).sum /
        (predictions.length : ℚ)))

/-- `Fusion.predict_confidence` for a classification fusion with
`compact=False`: the combined confidences zipped with the sorted canonical
class names into category/confidence records. -/
def predict_confidence_classif (F : Fusion) (loader : String → Member) :
    List (String × ℚ) :=
  F.class_names.zip (combine_confidences F (collectConfVotes F loader).1)

/-- Modelled from the spec: `sort_categories` (module `bigml/model.py`, not
under `src/`), the categorical tie-break: compare two categories by their
position in the objective field's raw (pre-sort) category list.  An absent
category is totalised to index `categories_list.length` where Python's
`list.index` would raise `ValueError`; the theorems below carry membership
hypotheses. -/
def sort_categories (a b : String) (categories_list : List String) : ℤ :=
  if categories_list.indexOf a < categories_list.indexOf b then -1
  else if categories_list.indexOf b < categories_list.indexOf a then 1
  else 0

/-- `Fusion._sort_predictions(a, b, criteria)` with `criteria="probability"`:
equal metrics fall back to `sort_categories` on the objective's raw category
order; otherwise the entry with the higher metric sorts first. -/
def sortPredictions (F : Fusion) (a b : String × ℚ) : ℤ :=
  if a.2 = b.2 then sort_categories a.1 b.1 F.objective_categories
  else if b.2 > a.2 then 1 else -1

/-- The boolean "ranks no later than" relation induced by the comparator
passed to `predictions.sort(key=cmp_to_key(...))` in `predict_operating`.
Python's `list.sort` is stable, and a stable sort by a comparator is the
merge sort by `cmp a b ≤ 0` (core's `List.mergeSort` is stable). -/
def opSortLE (F : Fusion) (a b : String × ℚ) : Bool :=
  decide (sortPredictions F a b ≤ 0)

/-- `Fusion.predict_operating` for a classification fusion, after
`parse_operating_point` (modelled from the spec: `bigml/model.py`, not under
`src/`) has validated the operating point — the `kind` is forced to
`"probability"` and a positive class outside `class_names` is a
`ValueError`.  If the positive class's probability exceeds the threshold,
its entry wins; otherwise the entries are sorted by the comparator above,
`prediction = predictions[0:2]` is taken, and the top entry is returned
unless it is the positive class, in which case the runner-up is (indexing a
missing runner-up raises `IndexError`). -/
def predict_operating (F : Fusion) (loader : String → Member)
    (positive_class : String) (threshold : ℚ) :
    Except PyErr (String × ℚ) := do
  if positive_class ∉ F.class_names then
    Except.error PyErr.valueError
  else do
    let predictions ← predict_probability_classif F loader
    let position := F.class_names.indexOf positive_class
    match predictions[position]? with
    | none => Except.error PyErr.otherError
    | some entry =>
      if entry.2 > threshold then pure entry
      else
        match predictions.mergeSort (opSortLE F) with
        | [] => Except.error PyErr.otherError
        | [a] => if a.1 = positive_class then Except.error PyErr.otherError
                 else pure a
        | a :: b :: _ => if a.1 = positive_class then pure b else pure a

/-- The ordering used by the standard branch of `Fusion._predict`:
`sorted(result, key=lambda x: -x["probability"])` — a stable sort ascending
on the negated probability, i.e. stable descending on the probability, with
*no* categorical tie-break. -/
def standardSortLE (a b : String × ℚ) : Bool :=
  decide (b.2 ≤ a.2)

/-- The classification selection of the standard branch of `Fusion._predict`:
the head of the stably sorted category/probability records.  (The preceding
loop merges each class's confidence into its record under a separate
`confidence` key, which cannot affect this probability-keyed selection, and
the final `category` → `prediction` key rename is presentational; both are
omitted.) -/
def predictClassif (F : Fusion) (loader : String → Member) :
    Except PyErr (String × ℚ) := do
  let result ← predict_probability_classif F loader
  match result.mergeSort standardSortLE with
  | [] => Except.error PyErr.otherError
  | top :: _ => pure top

/-- `del d[key]` on a Python dict (keys are unique), as a key/value list. -/
def kvDelete (key : String) (attrs : List (String × α)) : List (String × α) :=
  attrs.filter (fun kv => kv.1 ≠ key)

/-- `Fusion.dump`: `self_vars = vars(self)` aliases the live attribute
dictionary of the object, so `del self_vars["api"]` removes the `api`
attribute from the fusion itself before `bigml.util.dump` serializes the
dictionary.  Result: (the object's attribute dictionary after the call, the
dictionary handed to the serializer).  `del` on a dict without the key
raises `KeyError`. -/
def fusionDump (attrs : List (String × α)) :
    Except PyErr (List (String × α) × List (String × α)) :=
  if (attrs.lookup "api").isSome then
    Except.ok (kvDelete "api" attrs, kvDelete "api" attrs)
  else Except.error PyErr.keyError

/-- `Fusion.dumps`: identical attribute-dictionary mutation, serializing to a
string via `bigml.util.dumps` instead. -/
def fusionDumps (attrs : List (String × α)) :
    Except PyErr (List (String × α) × List (String × α)) :=
  if (attrs.lookup "api").isSome then
    Except.ok (kvDelete "api" attrs, kvDelete "api" attrs)
  else Except.error PyErr.keyError

/-! ## Proof-side auxiliary definitions -/

/-- Chunking a list into contiguous batches of `m` elements (last batch
possibly shorter); recursion-friendly restatement of the slice comprehension
in `buildSplits`, used only in proofs. -/
def chunksAux (m : ℕ) : List α → List (List α)
  | [] => []
  | a :: l => (a :: l.take (m - 1)) :: chunksAux m (l.drop (m - 1))
termination_by l => l.length
decreasing_by simp only [List.length_cons, List.length_drop]; omega

/-- The confidence outputs of the members that succeed, in visit order;
recursion-friendly restatement of the accumulation in `collectConfVotes`,
used only in proofs. -/
def confContribs (loader : String → Member) (ids : List String) :
    List (List (String × ℚ)) :=
  ids.filterMap (fun mid =>
    match (loader mid).confOutput with
    | Except.ok p => some p
    | Except.error _ => none)

/-- Whether a member's probability call succeeds (i.e. the member
contributes a vote rather than being skipped). -/
def probOk (loader : String → Member) (mid : String) : Bool :=
  match (loader mid).probOutput with
  | Except.ok _ => true
  | Except.error _ => false

/-- The scalar a contributing regression member supplies: the first element
of its probability output (`prediction[0]`); `0` for a non-contributing
member (never consulted there). -/
def regScalar (loader : String → Member) (mid : String) : ℚ :=
  match (loader mid).probOutput with
  | Except.ok l => l.headD 0
  | Except.error _ => 0

/-- Whether a member's confidence call succeeds. -/
def confOk (loader : String → Member) (mid : String) : Bool :=
  match (loader mid).confOutput with
  | Except.ok _ => true
  | Except.error _ => false

/-- Whether the classification loop records a vote for this member. -/
def voteSome (F : Fusion) (loader : String → Member) (mid : String) : Bool :=
  match classifVote F loader mid with
  | Except.ok (some _) => true
  | _ => false

/-- The vote vector the classification loop records for a contributing
member (junk `[]` for a non-contributing member; never consulted there). -/
def classifVoteVec (F : Fusion) (loader : String → Member) (mid : String) :
    List ℚ :=
  match classifVote F loader mid with
  | Except.ok (some (p, _)) => p
  | _ => []

/-! ## Concrete fusions and member behaviours used by witnesses and
counterexamples -/

/-- A two-class fusion over two members with weights 1 and 3 (the spec's §8
scenario). -/
def fusionAB : Fusion :=
  { model_ids := ["m1", "m2"]
    weights := [1, 3]
    class_names := ["A", "B"]
    objective_categories := ["A", "B"]
    models_splits := [["m1", "m2"]] }

/-- Member behaviours for `fusionAB`: model1 votes A:0.8/B:0.2, model2 votes
A:0.4/B:0.6. -/
def loaderAB : String → Member := fun mid =>
  if mid = "m1" then
    { class_names := ["A", "B"]
      probOutput := Except.ok [4/5, 1/5]
      confOutput := Except.ok [("A", 7/10), ("B", 3/10)] }
  else
    { class_names := ["A", "B"]
      probOutput := Except.ok [2/5, 3/5]
      confOutput := Except.ok [("A", 1/2), ("B", 1/2)] }

/-- A two-class fusion like `fusionAB` but with member weights 2 and -1. -/
def fusionNegW : Fusion :=
  { model_ids := ["m1", "m2"]
    weights := [2, -1]
    class_names := ["A", "B"]
    objective_categories := ["A", "B"]
    models_splits := [["m1", "m2"]] }

/-- Member behaviours for `fusionNegW`: two valid degenerate distributions. -/
def loaderNegW : String → Member := fun mid =>
  if mid = "m1" then
    { class_names := ["A", "B"]
      probOutput := Except.ok [1, 0]
      confOutput := Except.ok [("A", 1), ("B", 0)] }
  else
    { class_names := ["A", "B"]
      probOutput := Except.ok [0, 1]
      confOutput := Except.ok [("A", 0), ("B", 1)] }

/-- A three-class fusion with one member; the raw category order is the
reverse of the sorted class order. -/
def fusion3 : Fusion :=
  { model_ids := ["m1"]
    weights := [1]
    class_names := ["a", "b", "c"]
    objective_categories := ["c", "b", "a"]
    models_splits := [["m1"]] }

/-- Member behaviour for `fusion3`: probabilities a:0.25, b:0.5, c:0.25. -/
def loader3 : String → Member := fun _ =>
  { class_names := ["a", "b", "c"]
    probOutput := Except.ok [1/4, 1/2, 1/4]
    confOutput := Except.ok [("a", 1/4), ("b", 1/2), ("c", 1/4)] }

/-- A two-class fusion whose raw category order (`b, a`) is the reverse of
the sorted class order (`a, b`). -/
def fusion2 : Fusion :=
  { model_ids := ["m1"]
    weights := [1]
    class_names := ["a", "b"]
    objective_categories := ["b", "a"]
    models_splits := [["m1"]] }

/-- Member behaviour for `fusion2`: an exact tie between the two classes. -/
def loader2 : String → Member := fun _ =>
  { class_names := ["a", "b"]
    probOutput := Except.ok [1/2, 1/2]
    confOutput := Except.ok [("a", 1/2), ("b", 1/2)] }

/-- A regression fusion over two members with weights 1 and -2. -/
def fusionRegNeg : Fusion :=
  { model_ids := ["m1", "m2"]
    weights := [1, -2]
    class_names := []
    objective_categories := []
    models_splits := [["m1", "m2"]] }

/-- Member behaviours for `fusionRegNeg`: scalar predictions 3 and 5. -/
def loaderRegNeg : String → Member := fun mid =>
  if mid = "m1" then
    { class_names := []
      probOutput := Except.ok [3]
      confOutput := Except.error PyErr.otherError }
  else
    { class_names := []
      probOutput := Except.ok [5]
      confOutput := Except.error PyErr.otherError }

/-- A regression fusion over two members with weights 1 and 3. -/
def fusionReg : Fusion :=
  { model_ids := ["m1", "m2"]
    weights := [1, 3]
    class_names := []
    objective_categories := []
    models_splits := [["m1", "m2"]] }

/-- Member behaviours for `fusionReg`: scalar predictions 10 and 20. -/
def loaderReg : String → Member := fun mid =>
  if mid = "m1" then
    { class_names := []
      probOutput := Except.ok [10]
      confOutput := Except.error PyErr.otherError }
  else
    { class_names := []
      probOutput := Except.ok [20]
      confOutput := Except.error PyErr.otherError }

/-- A three-class fusion over one member whose own class list is a strict
subset of the fusion's canonical classes. -/
def fusionSub : Fusion :=
  { model_ids := ["m1"]
    weights := [1]
    class_names := ["A", "B", "C"]
    objective_categories := ["A", "B", "C"]
    models_splits := [["m1"]] }

/-- Member behaviour for `fusionSub`: the member only knows classes A and C. -/
def loaderSub : String → Member := fun _ =>
  { class_names := ["A", "C"]
    probOutput := Except.ok [1/2, 1/2]
    confOutput := Except.ok [("A", 1/2), ("C", 1/2)] }

/-- Member behaviours over `fusionAB`'s members where model1 raises an
exception that is not a `ValueError` (e.g. a `TypeError`) inside its
probability call, while model2 behaves normally. -/
def loaderCrash : String → Member := fun mid =>
  if mid = "m1" then
    { class_names := ["A", "B"]
      probOutput := Except.error PyErr.otherError
      confOutput := Except.error PyErr.otherError }
  else
    { class_names := ["A", "B"]
      probOutput := Except.ok [2/5, 3/5]
      confOutput := Except.ok [("A", 1/2), ("B", 1/2)] }

/-- Member behaviours over `fusionAB`'s members where model1 fails with a
`ValueError` (the missing-numerics rejection), while model2 behaves
normally. -/
def loaderSkip : String → Member := fun mid =>
  if mid = "m1" then
    { class_names := ["A", "B"]
      probOutput := Except.error PyErr.valueError
      confOutput := Except.error PyErr.valueError }
  else
    { class_names := ["A", "B"]
      probOutput := Except.ok [2/5, 3/5]
      confOutput := Except.ok [("A", 1/2), ("B", 1/2)] }

/-! ## Helper lemmas -/

theorem lookup_kvDelete (key : String) :
    ∀ attrs : List (String × α), (kvDelete key attrs).lookup key = none := by
  intro attrs
  induction attrs with
  | nil => rfl
  | cons kv rest ih =>
    by_cases h : kv.1 = key
    · simpa [kvDelete, List.filter_cons, h] using ih
    · have hne : (key == kv.1) = false := by
        simp only [beq_eq_false_iff_ne, ne_eq]
        exact fun hh => h hh.symm
      simpa [kvDelete, List.filter_cons, h, List.lookup, hne] using ih

theorem chunksAux_flatten (m : ℕ) (l : List α) :
    (chunksAux m l).flatten = l := by
  have key : ∀ n (l : List α), l.length ≤ n → (chunksAux m l).flatten = l := by
    intro n
    induction n with
    | zero =>
      intro l hl
      have hnil : l = [] := List.length_eq_zero.mp (Nat.le_zero.mp hl)
      subst hnil
      simp [chunksAux]
    | succ n ih =>
      intro l hl
      match l with
      | [] => simp [chunksAux]
      | a :: t =>
        simp only [chunksAux, List.flatten_cons]
        rw [ih (t.drop (m - 1)) (by simp at hl ⊢; omega)]
        simp [List.take_append_drop]
  exact key l.length l le_rfl

theorem chunksAux_length_le (m : ℕ) (hm : 0 < m) (l : List α) :
    ∀ s ∈ chunksAux m l, s.length ≤ m := by
  have key : ∀ n (l : List α), l.length ≤ n → ∀ s ∈ chunksAux m l, s.length ≤ m := by
    intro n
    induction n with
    | zero =>
      intro l hl
      have hnil : l = [] := List.length_eq_zero.mp (Nat.le_zero.mp hl)
      subst hnil
      simp [chunksAux]
    | succ n ih =>
      intro l hl s hs
      match l with
      | [] => simp [chunksAux] at hs
      | a :: t =>
        simp only [chunksAux, List.mem_cons] at hs
        rcases hs with h | h
        · subst h
          simp only [List.length_cons, List.length_take]
          omega
        · exact ih (t.drop (m - 1)) (by simp at hl ⊢; omega) s h
  exact key l.length l le_rfl

theorem chunksAux_eq_nil_iff (m : ℕ) (l : List α) :
    chunksAux m l = [] ↔ l = [] := by
  match l with
  | [] => simp [chunksAux]
  | a :: t => simp [chunksAux]

theorem chunksAux_full (m : ℕ) (hm : 0 < m) (l : List α) :
    ∀ i s, i + 1 < (chunksAux m l).length → (chunksAux m l)[i]? = some s →
      s.length = m := by
  have key : ∀ n (l : List α), l.length ≤ n → ∀ i s,
      i + 1 < (chunksAux m l).length → (chunksAux m l)[i]? = some s →
      s.length = m := by
    intro n
    induction n with
    | zero =>
      intro l hl i s h hget
      have hnil : l = [] := List.length_eq_zero.mp (Nat.le_zero.mp hl)
      subst hnil
      simp [chunksAux] at h
    | succ n ih =>
      intro l hl i s h hget
      match l with
      | [] => simp [chunksAux] at h
      | a :: t =>
        simp only [chunksAux, List.length_cons] at h
        simp only [chunksAux] at hget
        match i with
        | 0 =>
          have hne : chunksAux m (t.drop (m - 1)) ≠ [] := by
            intro hnil
            rw [hnil] at h
            simp at h
          have hdrop : t.drop (m - 1) ≠ [] :=
            fun hnil => hne ((chunksAux_eq_nil_iff m _).mpr hnil)
          have hlen : m - 1 < t.length := by
            by_contra hc
            exact hdrop (List.drop_eq_nil_of_le (by omega))
          simp only [List.getElem?_cons_zero, Option.some.injEq] at hget
          subst hget
          simp only [List.length_cons, List.length_take]
          omega
        | i + 1 =>
          simp only [List.getElem?_cons_succ] at hget
          exact ih (t.drop (m - 1)) (by simp at hl ⊢; omega) i s (by simpa using h) hget
  exact fun i s h hget => key l.length l le_rfl i s h hget

theorem range_map_eq_chunksAux (m : ℕ) (hm : 0 < m) (ids : List α) :
    (List.range ((ids.length + m - 1) / m)).map
      (fun k => (ids.drop (k * m)).take m) = chunksAux m ids := by
  have key : ∀ n (ids : List α), ids.length ≤ n →
      (List.range ((ids.length + m - 1) / m)).map
        (fun k => (ids.drop (k * m)).take m) = chunksAux m ids := by
    intro n
    induction n with
    | zero =>
      intro ids hl
      have hnil : ids = [] := List.length_eq_zero.mp (Nat.le_zero.mp hl)
      subst hnil
      have hz : (m - 1) / m = 0 := Nat.div_eq_of_lt (by omega)
      simp [chunksAux, hz]
    | succ n ih =>
      intro ids hl
      match ids with
      | [] =>
        have hz : (m - 1) / m = 0 := Nat.div_eq_of_lt (by omega)
        simp [chunksAux, hz]
      | a :: t =>
        have hcount : ((a :: t).length + m - 1) / m = t.length / m + 1 := by
          have h1 : (a :: t).length + m - 1 = t.length + m := by
            simp only [List.length_cons]
            omega
          rw [h1, Nat.add_div_right _ hm]
        have hcount2 : ((t.drop (m - 1)).length + m - 1) / m = t.length / m := by
          rcases le_or_lt (m - 1) t.length with hle | hlt
          · have h2 : (t.drop (m - 1)).length + m - 1 = t.length := by
              simp only [List.length_drop]
              omega
            rw [h2]
          · have h2 : (t.drop (m - 1)).length + m - 1 = m - 1 := by
              simp only [List.length_drop]
              omega
            rw [h2, Nat.div_eq_of_lt (by omega), Nat.div_eq_of_lt (by omega)]
        rw [hcount, List.range_succ_eq_map]
        simp only [List.map_cons, List.map_map]
        have hhead : ((a :: t).drop (0 * m)).take m = a :: t.take (m - 1) := by
          simp only [Nat.zero_mul, List.drop_zero]
          cases m with
          | zero => omega
          | succ k => simp [List.take_succ_cons]
        have hcomp : ((fun k => ((a :: t).drop (k * m)).take m) ∘ Nat.succ) =
            (fun k => ((t.drop (m - 1)).drop (k * m)).take m) := by
          funext k
          simp only [Function.comp_apply, Nat.succ_eq_add_one]
          rw [List.drop_drop]
          have h1 : (k + 1) * m = ((m - 1) + k * m) + 1 := by
            have h2 : (k + 1) * m = k * m + m := by ring
            omega
          rw [h1, List.drop_succ_cons]
        rw [hcomp, hhead]
        have iht := ih (t.drop (m - 1)) (by simp at hl ⊢; omega)
        rw [hcount2] at iht
        rw [iht]
        simp [chunksAux]
  exact key ids.length ids le_rfl

/-! ## Claim theorems -/

/-- C10: `Fusion.dump` and `Fusion.dumps` mutate the live object:
`vars(self)` aliases the attribute dictionary and the `api` key is deleted
from it, so after either call the fusion no longer has an `api` attribute —
the attribute dictionary is observably changed, and the very dictionary
missing `api` is what gets serialized. -/
theorem dump_deletes_api_attribute (attrs : List (String × α)) (a : α)
    (h : attrs.lookup "api" = some a) :
    fusionDump attrs = Except.ok (kvDelete "api" attrs, kvDelete "api" attrs) ∧
    fusionDumps attrs = Except.ok (kvDelete "api" attrs, kvDelete "api" attrs) ∧
    (kvDelete "api" attrs).lookup "api" = none ∧
    kvDelete "api" attrs ≠ attrs := by
  refine ⟨?_, ?_, lookup_kvDelete _ _, ?_⟩
  · simp [fusionDump, h]
  · simp [fusionDumps, h]
  · intro he
    have hnone := lookup_kvDelete "api" attrs
    rw [he, h] at hnone
    exact Option.noConfusion hnone

/-- Witness for C10 at a concrete attribute dictionary. -/
theorem dump_deletes_api_attribute_witness :
    ([("api", 0), ("other", 1)] : List (String × ℕ)).lookup "api" = some 0 ∧
    fusionDump [("api", 0), ("other", 1)] =
      Except.ok ((kvDelete "api" [("api", 0), ("other", 1)] : List (String × ℕ)),
                 kvDelete "api" [("api", 0), ("other", 1)]) ∧
    (kvDelete "api" [("api", 0), ("other", 1)] : List (String × ℕ)).lookup "api" = none ∧
    (kvDelete "api" [("api", 0), ("other", 1)] : List (String × ℕ)) ≠
      [("api", 0), ("other", 1)] := by
  have h : ([("api", 0), ("other", 1)] : List (String × ℕ)).lookup "api" = some 0 := by
    simp [List.lookup]
  have hmain := dump_deletes_api_attribute [("api", 0), ("other", 1)] 0 h
  exact ⟨h, hmain.1, hmain.2.2.1, hmain.2.2.2⟩

/-- C9 (amended): for a *positive* integer `max_models = m`, `models_splits`
partitions `model_ids` into contiguous batches in order, each of size at most
`m`, all but possibly the last of size exactly `m`, whose concatenation is
`model_ids`; with `max_models = None` there is a single batch holding all of
`model_ids`.  (For a non-positive `max_models` the claim fails: see the
counterexample — `range(0, n, max_models)` is empty for a negative step, so
`models_splits` is `[]` and the concatenation is not `model_ids`.) -/
theorem models_splits_partition (ids : List String) (m : ℤ) (hm : 0 < m) :
    ∃ splits, buildSplits ids (some m) = Except.ok splits ∧
      splits.flatten = ids ∧
      (∀ s ∈ splits, s.length ≤ m.toNat) ∧
      (∀ i s, i + 1 < splits.length → splits[i]? = some s → s.length = m.toNat) ∧
      buildSplits ids none = Except.ok [ids] := by
  have hmn : 0 < m.toNat := by omega
  refine ⟨chunksAux m.toNat ids, ?_, chunksAux_flatten _ _,
          chunksAux_length_le _ hmn _, chunksAux_full _ hmn _, rfl⟩
  show (if m = 0 then Except.error PyErr.valueError
        else if m < 0 then Except.ok []
        else Except.ok ((List.range ((ids.length + m.toNat - 1) / m.toNat)).map
          (fun k => (ids.drop (k * m.toNat)).take m.toNat))) =
      Except.ok (chunksAux m.toNat ids)
  rw [if_neg (by omega), if_neg (by omega), range_map_eq_chunksAux _ hmn]

/-- Counterexample for C9: with `max_models = -1` (an integer) and two
members, `models_splits` is empty, so the concatenation of the batches is
not `model_ids`. -/
theorem models_splits_counterexample :
    buildSplits ["m1", "m2"] (some (-1)) = Except.ok [] ∧
    ([] : List (List String)).flatten ≠ ["m1", "m2"] := by
  constructor
  · rfl
  · simp

/-- Witness for C9 at the spec's example: five members with `max_models = 2`
give batch sizes 2, 2, 1. -/
theorem models_splits_partition_witness :
    (0 : ℤ) < 2 ∧
    (∃ splits, buildSplits ["a", "b", "c", "d", "e"] (some 2) = Except.ok splits ∧
      splits.flatten = ["a", "b", "c", "d", "e"] ∧
      (∀ s ∈ splits, s.length ≤ (2 : ℤ).toNat) ∧
      (∀ i s, i + 1 < splits.length → splits[i]? = some s → s.length = (2 : ℤ).toNat) ∧
      buildSplits ["a", "b", "c", "d", "e"] none =
        Except.ok [["a", "b", "c", "d", "e"]]) :=
  ⟨by decide, models_splits_partition ["a", "b", "c", "d", "e"] 2 (by decide)⟩

theorem extractIds_length :
    ∀ (l : List ModelsEntry) (ids), extractIds l = Except.ok ids →
      ids.length = l.length := by
  intro l
  induction l with
  | nil =>
    intro ids h
    simp only [extractIds, Except.ok.injEq] at h
    subst h
    rfl
  | cons e rest ih =>
    intro ids h
    match e with
    | ModelsEntry.bare i => simp [extractIds] at h
    | ModelsEntry.record none w => simp [extractIds] at h
    | ModelsEntry.record (some i) w =>
      simp only [extractIds] at h
      match hrest : extractIds rest with
      | Except.error e' =>
        rw [hrest] at h
        simp [Except.map] at h
      | Except.ok tl =>
        rw [hrest] at h
        simp only [Except.map, Except.ok.injEq] at h
        subst h
        simp [ih tl hrest]

theorem extractWeights_length :
    ∀ (l : List ModelsEntry) (ws), extractWeights l = Except.ok ws →
      ws.length = l.length := by
  intro l
  induction l with
  | nil =>
    intro ws h
    simp only [extractWeights, Except.ok.injEq] at h
    subst h
    rfl
  | cons e rest ih =>
    intro ws h
    match e with
    | ModelsEntry.bare i => simp [extractWeights] at h
    | ModelsEntry.record j none => simp [extractWeights] at h
    | ModelsEntry.record j (some w) =>
      simp only [extractWeights] at h
      match hrest : extractWeights rest with
      | Except.error e' =>
        rw [hrest] at h
        simp [Except.map] at h
      | Except.ok tl =>
        rw [hrest] at h
        simp only [Except.map, Except.ok.injEq] at h
        subst h
        simp [ih tl hrest]

theorem extractIds_ok (l : List ModelsEntry)
    (hrec : ∀ e ∈ l, e.isRecord = true) (hid : ∀ e ∈ l, e.hasId = true) :
    extractIds l = Except.ok (l.map ModelsEntry.asId) := by
  induction l with
  | nil => rfl
  | cons e rest ih =>
    match e with
    | ModelsEntry.bare i =>
      have := hrec _ (List.mem_cons_self _ _)
      simp [ModelsEntry.isRecord] at this
    | ModelsEntry.record none w =>
      have := hid _ (List.mem_cons_self _ _)
      simp [ModelsEntry.hasId] at this
    | ModelsEntry.record (some i) w =>
      have ihr := ih (fun e he => hrec e (List.mem_cons_of_mem _ he))
        (fun e he => hid e (List.mem_cons_of_mem _ he))
      simp [extractIds, ihr, Except.map, ModelsEntry.asId]

theorem extractIds_keyError (l : List ModelsEntry)
    (hrec : ∀ e ∈ l, e.isRecord = true) (h : ∃ e ∈ l, e.hasId = false) :
    extractIds l = Except.error PyErr.keyError := by
  induction l with
  | nil => simp at h
  | cons e rest ih =>
    match e with
    | ModelsEntry.bare i =>
      have := hrec _ (List.mem_cons_self _ _)
      simp [ModelsEntry.isRecord] at this
    | ModelsEntry.record none w => rfl
    | ModelsEntry.record (some i) w =>
      rcases h with ⟨e', he', hid'⟩
      rcases List.mem_cons.mp he' with heq | hmem
      · subst heq
        simp [ModelsEntry.hasId] at hid'
      · have ihr := ih (fun e he => hrec e (List.mem_cons_of_mem _ he))
          ⟨e', hmem, hid'⟩
        simp [extractIds, ihr, Except.map]

theorem extractWeights_keyError (l : List ModelsEntry)
    (hrec : ∀ e ∈ l, e.isRecord = true) (h : ∃ e ∈ l, e.hasWeight = false) :
    extractWeights l = Except.error PyErr.keyError := by
  induction l with
  | nil => simp at h
  | cons e rest ih =>
    match e with
    | ModelsEntry.bare i =>
      have := hrec _ (List.mem_cons_self _ _)
      simp [ModelsEntry.isRecord] at this
    | ModelsEntry.record j none => rfl
    | ModelsEntry.record j (some w) =>
      rcases h with ⟨e', he', hw'⟩
      rcases List.mem_cons.mp he' with heq | hmem
      · subst heq
        simp [ModelsEntry.hasWeight] at hw'
      · have ihr := ih (fun e he => hrec e (List.mem_cons_of_mem _ he))
          ⟨e', hmem, hw'⟩
        simp [extractWeights, ihr, Except.map]

theorem extractIds_error_kind (l : List ModelsEntry)
    (hrec : ∀ e ∈ l, e.isRecord = true) :
    ∀ err, extractIds l = Except.error err → err = PyErr.keyError := by
  induction l with
  | nil => intro err h; simp [extractIds] at h
  | cons e rest ih =>
    intro err h
    match e with
    | ModelsEntry.bare i =>
      have := hrec _ (List.mem_cons_self _ _)
      simp [ModelsEntry.isRecord] at this
    | ModelsEntry.record none w =>
      simp only [extractIds, Except.error.injEq] at h
      exact h.symm
    | ModelsEntry.record (some i) w =>
      simp only [extractIds] at h
      match hrest : extractIds rest with
      | Except.error e' =>
        rw [hrest] at h
        simp only [Except.map, Except.error.injEq] at h
        exact h ▸ ih (fun e he => hrec e (List.mem_cons_of_mem _ he)) e' hrest
      | Except.ok tl =>
        rw [hrest] at h
        simp [Except.map] at h

theorem extractWeights_error_kind (l : List ModelsEntry)
    (hrec : ∀ e ∈ l, e.isRecord = true) :
    ∀ err, extractWeights l = Except.error err → err = PyErr.keyError := by
  induction l with
  | nil => intro err h; simp [extractWeights] at h
  | cons e rest ih =>
    intro err h
    match e with
    | ModelsEntry.bare i =>
      have := hrec _ (List.mem_cons_self _ _)
      simp [ModelsEntry.isRecord] at this
    | ModelsEntry.record j none =>
      simp only [extractWeights, Except.error.injEq] at h
      exact h.symm
    | ModelsEntry.record j (some w) =>
      simp only [extractWeights] at h
      match hrest : extractWeights rest with
      | Except.error e' =>
        rw [hrest] at h
        simp only [Except.map, Except.error.injEq] at h
        exact h ▸ ih (fun e he => hrec e (List.mem_cons_of_mem _ he)) e' hrest
      | Except.ok tl =>
        rw [hrest] at h
        simp [Except.map] at h

/-- C8: parsing the raw models declaration.  For a nonempty homogeneous list
of records: the fatal error (the `ValueError` converted from the `KeyError`)
is raised exactly when some entry lacks an `id`; if every entry has an `id`
but some entry lacks a `weight`, every weight defaults to 1.  For a list of
bare identifiers every weight defaults to 1.  In every non-error outcome the
returned `model_ids` and `weights` have equal length. -/
theorem get_models_weight_spec (l : List ModelsEntry) :
    (l ≠ [] → (∀ e ∈ l, e.isRecord = true) →
      ((get_models_weight l = Except.error PyErr.valueError ↔
          ∃ e ∈ l, e.hasId = false) ∧
       ((∀ e ∈ l, e.hasId = true) → (∃ e ∈ l, e.hasWeight = false) →
          get_models_weight l =
            Except.ok (l.map ModelsEntry.asId, List.replicate l.length 1)))) ∧
    (l ≠ [] → (∀ e ∈ l, e.isRecord = false) →
      get_models_weight l =
        Except.ok (l.map ModelsEntry.asId, List.replicate l.length 1)) ∧
    (∀ ids ws, get_models_weight l = Except.ok (ids, ws) →
      ids.length = ws.length) := by
  refine ⟨?_, ?_, ?_⟩
  · intro hne hrec
    match l with
    | [] => exact absurd rfl hne
    | first :: rest =>
      have hfirst : first.isRecord = true := hrec _ (List.mem_cons_self _ _)
      refine ⟨⟨?_, ?_⟩, ?_⟩
      · intro herr
        by_contra hno
        push_neg at hno
        have hid : ∀ e ∈ first :: rest, e.hasId = true := by
          intro e he
          have := hno e he
          simpa using this
        have hok := extractIds_ok _ hrec hid
        simp only [get_models_weight, hfirst, if_true, hok] at herr
        match hw : extractWeights (first :: rest) with
        | Except.ok ws => rw [hw] at herr; simp at herr
        | Except.error e' =>
          have hkind := extractWeights_error_kind _ hrec e' hw
          subst hkind
          rw [hw] at herr
          simp at herr
      · intro hex
        -- some entry lacks an id, so extractIds raises the KeyError that
        -- get_models_weight converts to the fatal ValueError
        have hkey := extractIds_keyError _ hrec hex
        simp [get_models_weight, hfirst, hkey]
      · intro hid hexw
        have hok := extractIds_ok _ hrec hid
        have hkey := extractWeights_keyError _ hrec hexw
        simp [get_models_weight, hfirst, hok, hkey]
  · intro hne hbare
    match l with
    | [] => exact absurd rfl hne
    | first :: rest =>
      have hfirst : first.isRecord = false := hbare _ (List.mem_cons_self _ _)
      simp [get_models_weight, hfirst]
  · intro ids ws h
    match l with
    | [] => simp [get_models_weight] at h
    | first :: rest =>
      by_cases hfirst : first.isRecord = true
      · simp only [get_models_weight, hfirst, if_true] at h
        match hi : extractIds (first :: rest) with
        | Except.error e' =>
          rw [hi] at h
          match e' with
          | PyErr.keyError => simp at h
          | PyErr.valueError => simp at h
          | PyErr.otherError => simp at h
        | Except.ok ids' =>
          rw [hi] at h
          match hw : extractWeights (first :: rest) with
          | Except.error PyErr.keyError =>
            rw [hw] at h
            simp only [Except.ok.injEq, Prod.mk.injEq] at h
            rcases h with ⟨h1, h2⟩
            subst h1
            subst h2
            simp
          | Except.error PyErr.valueError => rw [hw] at h; simp at h
          | Except.error PyErr.otherError => rw [hw] at h; simp at h
          | Except.ok ws' =>
            rw [hw] at h
            simp only [Except.ok.injEq, Prod.mk.injEq] at h
            rcases h with ⟨h1, h2⟩
            subst h1
            subst h2
            rw [extractIds_length _ _ hi, extractWeights_length _ _ hw]
      · have hfirst2 : first.isRecord = false := by
          simpa using hfirst
        simp only [get_models_weight, hfirst2, Bool.false_eq_true, if_false,
          Except.ok.injEq, Prod.mk.injEq] at h
        rcases h with ⟨h1, h2⟩
        subst h1
        subst h2
        simp

/-- Witness for C8: two records with ids, the first lacking a weight — both
weights default to 1 and the lengths agree. -/
theorem get_models_weight_spec_witness :
    get_models_weight [ModelsEntry.record (some "x") none,
                       ModelsEntry.record (some "y") (some 3)] =
      Except.ok (["x", "y"], [1, 1]) := by
  have h := ((get_models_weight_spec [ModelsEntry.record (some "x") none,
      ModelsEntry.record (some "y") (some 3)]).1 (by simp) (by decide)).2
      (by decide) ⟨ModelsEntry.record (some "x") none, by simp, by decide⟩
  simpa [ModelsEntry.asId] using h

theorem indexOf?_of_mem {c : String} {origin : List String} (h : c ∈ origin) :
    origin.indexOf? c = some (origin.indexOf c) := by
  match hio : origin.indexOf? c with
  | none =>
    rw [List.indexOf?_eq_none_iff] at hio
    have := hio c h
    simp at this
  | some i =>
    rw [List.indexOf_eq_indexOf?, hio]

theorem indexOf?_of_not_mem {c : String} {origin : List String} (h : c ∉ origin) :
    origin.indexOf? c = none := by
  rw [List.indexOf?_eq_none_iff]
  intro x hx
  simp only [beq_iff_eq]
  exact fun he => h (he ▸ hx)

theorem rearrange_spec :
    ∀ (dest origin : List String) (pred : List ℚ),
      origin.length ≤ pred.length →
      ∃ out, rearrange_prediction origin dest pred = Except.ok out ∧
        out.length = dest.length ∧
        ∀ (i : ℕ) (c : String), dest[i]? = some c →
          (c ∉ origin → out[i]? = some 0) ∧
          (c ∈ origin → out[i]? = some (pred.getD (origin.indexOf c) 0)) := by
  intro dest
  induction dest with
  | nil =>
    intro origin pred hlen
    refine ⟨[], rfl, rfl, ?_⟩
    intro i c hc
    simp at hc
  | cons d rest ih =>
    intro origin pred hlen
    rcases ih origin pred hlen with ⟨out, hout, hlen2, hvals⟩
    by_cases hd : d ∈ origin
    · have hidx := indexOf?_of_mem hd
      have hbound : origin.indexOf d < pred.length :=
        lt_of_lt_of_le (List.indexOf_lt_length.mpr hd) hlen
      refine ⟨pred[origin.indexOf d] :: out, ?_, by simp [hlen2], ?_⟩
      · simp only [rearrange_prediction, List.mapM_cons, hidx, hbound,
          dif_pos, bind, Except.bind]
        simp only [rearrange_prediction] at hout
        rw [hout]
        rfl
      · intro i c hc
        match i with
        | 0 =>
          simp only [List.getElem?_cons_zero, Option.some.injEq] at hc
          subst hc
          constructor
          · intro habs
            exact absurd hd habs
          · intro _
            simp [List.getD_eq_getElem?_getD, List.getElem?_eq_getElem hbound]
        | i + 1 =>
          simp only [List.getElem?_cons_succ] at hc ⊢
          exact hvals i c hc
    · have hidx := indexOf?_of_not_mem hd
      refine ⟨0 :: out, ?_, by simp [hlen2], ?_⟩
      · simp only [rearrange_prediction, List.mapM_cons, hidx, bind,
          Except.bind]
        simp only [rearrange_prediction] at hout
        rw [hout]
        rfl
      · intro i c hc
        match i with
        | 0 =>
          simp only [List.getElem?_cons_zero, Option.some.injEq] at hc
          subst hc
          exact ⟨fun _ => by simp, fun hmem => absurd hmem hd⟩
        | i + 1 =>
          simp only [List.getElem?_cons_succ] at hc ⊢
          exact hvals i c hc

/-- C5: a classification member whose class list differs from the fusion's
canonical `class_names` has its (already weighted) vector re-projected onto
the canonical order: each canonical label takes the member's value at the
matching label when present and `0.0` otherwise; in particular a member
whose classes are a strict subset of the fusion's contributes exactly `0.0`
to every canonical class absent from its own class list. -/
theorem member_reprojection (F : Fusion) (loader : String → Member)
    (mid : String) (v : List ℚ)
    (hv : (loader mid).probOutput = Except.ok v)
    (hlen : v.length = (loader mid).class_names.length) :
    ∃ p, classifVote F loader mid = Except.ok (some (p, modelWeight F mid)) ∧
      p.length = F.class_names.length ∧
      ∀ (i : ℕ) (c : String), F.class_names[i]? = some c →
        (c ∉ (loader mid).class_names → p[i]? = some 0) ∧
        (F.class_names ≠ (loader mid).class_names →
          c ∈ (loader mid).class_names →
          p[i]? = some ((weigh F v mid).getD
            ((loader mid).class_names.indexOf c) 0)) := by
  by_cases heq : F.class_names = (loader mid).class_names
  · refine ⟨weigh F v mid, ?_, ?_, ?_⟩
    · simp [classifVote, hv, heq]
    · simp [weigh, hlen, heq]
    · intro i c hc
      have hcmem : c ∈ F.class_names := List.getElem?_mem hc
      constructor
      · intro habs
        exact absurd (heq ▸ hcmem) habs
      · intro hne _
        exact absurd heq hne
  · have hwlen : (loader mid).class_names.length ≤ (weigh F v mid).length := by
      simp [weigh, hlen]
    rcases rearrange_spec F.class_names (loader mid).class_names
      (weigh F v mid) hwlen with ⟨out, hout, hlen2, hvals⟩
    refine ⟨out, ?_, hlen2, ?_⟩
    · simp [classifVote, hv, heq, hout]
    · intro i c hc
      exact ⟨fun hnm => (hvals i c hc).1 hnm,
             fun _ hm => (hvals i c hc).2 hm⟩

/-- Witness for C5: a member knowing only classes A and C inside a fusion
with classes A, B, C contributes probability 0 to class B. -/
theorem member_reprojection_witness :
    (loaderSub "m1").probOutput = Except.ok [1/2, 1/2] ∧
    (∃ p, classifVote fusionSub loaderSub "m1" =
        Except.ok (some (p, modelWeight fusionSub "m1")) ∧
      p.length = fusionSub.class_names.length ∧
      p[1]? = some 0) := by
  have happ := member_reprojection fusionSub loaderSub "m1" [1/2, 1/2]
    (by simp [loaderSub]) (by simp [loaderSub])
  rcases happ with ⟨p, hp, hplen, hvals⟩
  refine ⟨by simp [loaderSub], p, hp, hplen, ?_⟩
  have hB : fusionSub.class_names[1]? = some "B" := by simp [fusionSub]
  exact (hvals 1 "B" hB).1 (by simp [loaderSub])

theorem zip_self_map (l : List α) (g : α → β) :
    l.zip (l.map g) = l.map (fun x => (x, g x)) := by
  induction l with
  | nil => rfl
  | cons a t ih => simp [ih]

theorem confSplitFoldl_fst (F : Fusion) (loader : String → Member) :
    ∀ (split : List String) (acc : List (List (String × ℚ)) × List ℚ),
      (split.foldl
        (fun acc mid =>
          match confVote F loader mid with
          | none => acc
          | some (p, w) => (acc.1 ++ [p], acc.2 ++ [w]))
        acc).1 = acc.1 ++ confContribs loader split := by
  intro split
  induction split with
  | nil => intro acc; simp [confContribs]
  | cons mid rest ih =>
    intro acc
    simp only [List.foldl_cons]
    match hco : (loader mid).confOutput with
    | Except.error e =>
      have hcv : confVote F loader mid = none := by simp [confVote, hco]
      rw [hcv]
      rw [ih acc]
      simp [confContribs, hco]
    | Except.ok p =>
      have hcv : confVote F loader mid = some (p, modelWeight F mid) := by
        simp [confVote, hco]
      rw [hcv]
      rw [ih (acc.1 ++ [p], acc.2 ++ [modelWeight F mid])]
      simp [confContribs, hco]

theorem collectConfVotes_fst (F : Fusion) (loader : String → Member) :
    (collectConfVotes F loader).1 =
      confContribs loader F.models_splits.flatten := by
  have key : ∀ (splits : List (List String))
      (acc : List (List (String × ℚ)) × List ℚ),
      ((splits.foldl
        (fun acc split =>
          split.foldl
            (fun acc mid =>
              match confVote F loader mid with
              | none => acc
              | some (p, w) => (acc.1 ++ [p], acc.2 ++ [w]))
            acc)
        acc).1) = acc.1 ++ confContribs loader splits.flatten := by
    intro splits
    induction splits with
    | nil => intro acc; simp [confContribs]
    | cons split rest ih =>
      intro acc
      simp only [List.foldl_cons]
      rw [ih, confSplitFoldl_fst F loader split acc]
      simp [confContribs, List.filterMap_append, List.append_assoc]
  have := key F.models_splits ([], [])
  simpa [collectConfVotes] using this

/-- C4: for a classification fusion, the per-class confidence is the
*unweighted* arithmetic mean of the contributing members' per-class
confidences, so two fusions over the same members that differ only in their
member weights produce identical confidence outputs. -/
theorem confidence_weight_insensitivity (F : Fusion) (w' : List ℚ)
    (loader : String → Member) :
    predict_confidence_classif { F with weights := w' } loader =
      predict_confidence_classif F loader ∧
    ∀ (i : ℕ) (c : String), F.class_names[i]? = some c →
      (predict_confidence_classif F loader)[i]? =
        some (c, roundDec DECIMALS
          (((confContribs loader F.models_splits.flatten).map
              (fun p => memberConfFor p c)).sum /
            ((confContribs loader F.models_splits.flatten).length : ℚ))) := by
  constructor
  · show ({ F with weights := w' } : Fusion).class_names.zip
        (combine_confidences { F with weights := w' }
          (collectConfVotes { F with weights := w' } loader).1) =
      F.class_names.zip
        (combine_confidences F (collectConfVotes F loader).1)
    rw [collectConfVotes_fst, collectConfVotes_fst]
    rfl
  · intro i c hc
    show (F.class_names.zip
        (combine_confidences F (collectConfVotes F loader).1))[i]? = _
    rw [collectConfVotes_fst]
    have hzip : F.class_names.zip
        (combine_confidences F (confContribs loader F.models_splits.flatten)) =
        F.class_names.map (fun cn => (cn, roundDec DECIMALS
          (((confContribs loader F.models_splits.flatten).map
              (fun p => memberConfFor p cn)).sum /
            ((confContribs loader F.models_splits.flatten).length : ℚ)))) := by
      simp only [combine_confidences]
      exact zip_self_map F.class_names _
    rw [hzip, List.getElem?_map, hc]
    rfl

/-- Witness for C4: the two-member fusion with weights 1 and 3 versus weights
5 and 7 — identical confidence outputs, with class A's confidence the plain
mean of 0.7 and 0.5. -/
theorem confidence_weight_insensitivity_witness :
    predict_confidence_classif { fusionAB with weights := [5, 7] } loaderAB =
      predict_confidence_classif fusionAB loaderAB ∧
    (predict_confidence_classif fusionAB loaderAB)[0]? =
      some ("A", roundDec DECIMALS
        (((confContribs loaderAB fusionAB.models_splits.flatten).map
            (fun p => memberConfFor p "A")).sum /
          ((confContribs loaderAB fusionAB.models_splits.flatten).length : ℚ))) := by
  have happ := confidence_weight_insensitivity fusionAB [5, 7] loaderAB
  exact ⟨happ.1, happ.2 0 "A" (by simp [fusionAB])⟩

theorem classifVote_ok_some (F : Fusion) (loader : String → Member)
    (mid : String) (p : List ℚ) (w : ℚ)
    (h : classifVote F loader mid = Except.ok (some (p, w))) :
    w = modelWeight F mid ∧ classifVoteVec F loader mid = p ∧
    ∃ v, (loader mid).probOutput = Except.ok v ∧
      ((F.class_names = (loader mid).class_names ∧ p = weigh F v mid) ∨
       (F.class_names ≠ (loader mid).class_names ∧
        rearrange_prediction (loader mid).class_names F.class_names
          (weigh F v mid) = Except.ok p)) := by
  match hp : (loader mid).probOutput with
  | Except.error PyErr.valueError => simp [classifVote, hp] at h
  | Except.error PyErr.keyError => simp [classifVote, hp] at h
  | Except.error PyErr.otherError => simp [classifVote, hp] at h
  | Except.ok v =>
    by_cases heq : F.class_names = (loader mid).class_names
    · simp only [classifVote, hp, heq, ne_eq, not_true_eq_false, if_false,
        Except.ok.injEq, Option.some.injEq, Prod.mk.injEq] at h
      rcases h with ⟨h1, h2⟩
      refine ⟨h2.symm, ?_, v, rfl, Or.inl ⟨heq, h1.symm⟩⟩
      simp only [classifVoteVec, classifVote, hp, heq, ne_eq,
        not_true_eq_false, if_false]
      exact h1
    · simp only [classifVote, hp, heq, ne_eq, not_false_eq_true, if_true] at h
      match hr : rearrange_prediction (loader mid).class_names F.class_names
          (weigh F v mid) with
      | Except.error e => rw [hr] at h; simp at h
      | Except.ok out =>
        rw [hr] at h
        simp only [Except.ok.injEq, Option.some.injEq, Prod.mk.injEq] at h
        rcases h with ⟨h1, h2⟩
        refine ⟨h2.symm, ?_, v, rfl, Or.inr ⟨heq, h1 ▸ hr⟩⟩
        simp only [classifVoteVec, classifVote, hp, heq, ne_eq,
          not_false_eq_true, if_true, hr]
        exact h1

theorem classifFold_char (F : Fusion) (loader : String → Member) :
    ∀ (split : List String),
      (∀ mid ∈ split, ∃ r, classifVote F loader mid = Except.ok r) →
      ∀ (acc : List (List ℚ) × List ℚ),
      (split.foldlM
        (fun acc model_id => do
          match ← classifVote F loader model_id with
          | none => pure acc
          | some (p, w) => pure (acc.1 ++ [p], acc.2 ++ [w]))
        acc)
      = Except.ok
          (acc.1 ++ (split.filter (voteSome F loader)).map
            (classifVoteVec F loader),
           acc.2 ++ (split.filter (voteSome F loader)).map
            (modelWeight F)) := by
  intro split
  induction split with
  | nil => intro _ acc; simp [pure, Except.pure]
  | cons mid rest ih =>
    intro hok acc
    have hmid := hok mid (List.mem_cons_self _ _)
    rcases hmid with ⟨r, hr⟩
    have ihr := ih (fun m hm => hok m (List.mem_cons_of_mem _ hm))
    simp only [List.foldlM_cons, hr]
    match r with
    | none =>
      have hvs : voteSome F loader mid = false := by simp [voteSome, hr]
      simp only [List.filter_cons, hvs, Bool.false_eq_true, if_false]
      simp only [bind, Except.bind, pure, Except.pure]
      have ihr2 := ihr acc
      simp only [bind, Except.bind, pure, Except.pure] at ihr2
      exact ihr2
    | some (p, w) =>
      rcases classifVote_ok_some F loader mid p w hr with ⟨hw, hvec, _⟩
      have hvs : voteSome F loader mid = true := by simp [voteSome, hr]
      simp only [List.filter_cons, hvs, if_true]
      simp only [bind, Except.bind, pure, Except.pure]
      have ihr2 := ihr (acc.1 ++ [p], acc.2 ++ [w])
      simp only [bind, Except.bind, pure, Except.pure] at ihr2
      rw [ihr2]
      simp [hvec, hw, List.append_assoc]

theorem collectClassifVotes_char (F : Fusion) (loader : String → Member)
    (hok : ∀ mid ∈ F.models_splits.flatten,
      ∃ r, classifVote F loader mid = Except.ok r) :
    collectClassifVotes F loader = Except.ok
      ((F.models_splits.flatten.filter (voteSome F loader)).map
        (classifVoteVec F loader),
       (F.models_splits.flatten.filter (voteSome F loader)).map
        (modelWeight F)) := by
  have key : ∀ (splits : List (List String)),
      (∀ mid ∈ splits.flatten, ∃ r, classifVote F loader mid = Except.ok r) →
      ∀ (acc : List (List ℚ) × List ℚ),
      (splits.foldlM
        (fun acc split => do
          let (votes_split, ws) ← splitVotesClassif F loader split acc.2
          pure (acc.1 ++ votes_split, ws))
        acc)
      = Except.ok
          (acc.1 ++ (splits.flatten.filter (voteSome F loader)).map
            (classifVoteVec F loader),
           acc.2 ++ (splits.flatten.filter (voteSome F loader)).map
            (modelWeight F)) := by
    intro splits
    induction splits with
    | nil => intro _ acc; simp [pure, Except.pure]
    | cons split rest ih =>
      intro hok acc
      have hsplit : ∀ mid ∈ split, ∃ r, classifVote F loader mid = Except.ok r :=
        fun m hm => hok m (by simp [hm])
      have hrest : ∀ mid ∈ rest.flatten,
          ∃ r, classifVote F loader mid = Except.ok r :=
        fun m hm => hok m (by simp [hm])
      have hinner : splitVotesClassif F loader split acc.2 = Except.ok
          ((split.filter (voteSome F loader)).map (classifVoteVec F loader),
           acc.2 ++ (split.filter (voteSome F loader)).map (modelWeight F)) := by
        simpa [splitVotesClassif] using classifFold_char F loader split hsplit ([], acc.2)
      simp only [List.foldlM_cons, hinner]
      simp only [bind, Except.bind, pure, Except.pure]
      have ihr2 := ih hrest (acc.1 ++ (split.filter (voteSome F loader)).map
          (classifVoteVec F loader),
        acc.2 ++ (split.filter (voteSome F loader)).map (modelWeight F))
      simp only [bind, Except.bind, pure, Except.pure] at ihr2
      rw [ihr2]
      simp [List.filter_append, List.map_append, List.append_assoc]
  simpa [collectClassifVotes] using key F.models_splits hok ([], [])

theorem regVote_ok_some (F : Fusion) (loader : String → Member)
    (mid : String) (p w : ℚ)
    (h : regVote F loader mid = Except.ok (some (p, w))) :
    w = modelWeight F mid ∧
    p = weighScalar F (regScalar loader mid) mid ∧
    probOk loader mid = true := by
  match hp : (loader mid).probOutput with
  | Except.error PyErr.valueError => simp [regVote, hp] at h
  | Except.error PyErr.keyError => simp [regVote, hp] at h
  | Except.error PyErr.otherError => simp [regVote, hp] at h
  | Except.ok v =>
    match v with
    | [] => simp [regVote, hp] at h
    | x :: t =>
      simp only [regVote, hp, Except.ok.injEq, Option.some.injEq,
        Prod.mk.injEq] at h
      rcases h with ⟨h1, h2⟩
      exact ⟨h2.symm, by simp [h1.symm, regScalar, hp], by simp [probOk, hp]⟩

theorem regVote_ok_none (F : Fusion) (loader : String → Member)
    (mid : String) (h : regVote F loader mid = Except.ok none) :
    probOk loader mid = false := by
  match hp : (loader mid).probOutput with
  | Except.error e => simp [probOk, hp]
  | Except.ok v =>
    match v with
    | [] => simp [regVote, hp] at h
    | x :: t => simp [regVote, hp] at h

theorem regFold_char (F : Fusion) (loader : String → Member) :
    ∀ (split : List String),
      (∀ mid ∈ split, ∃ r, regVote F loader mid = Except.ok r) →
      ∀ (acc : List ℚ × List ℚ),
      (split.foldlM
        (fun acc model_id => do
          match ← regVote F loader model_id with
          | none => pure acc
          | some (p, w) => pure (acc.1 ++ [p], acc.2 ++ [w]))
        acc)
      = Except.ok
          (acc.1 ++ (split.filter (probOk loader)).map
            (fun mid => weighScalar F (regScalar loader mid) mid),
           acc.2 ++ (split.filter (probOk loader)).map (modelWeight F)) := by
  intro split
  induction split with
  | nil => intro _ acc; simp [pure, Except.pure]
  | cons mid rest ih =>
    intro hok acc
    rcases hok mid (List.mem_cons_self _ _) with ⟨r, hr⟩
    have ihr := ih (fun m hm => hok m (List.mem_cons_of_mem _ hm))
    simp only [List.foldlM_cons, hr]
    match r with
    | none =>
      have hpo := regVote_ok_none F loader mid hr
      simp only [List.filter_cons, hpo, Bool.false_eq_true, if_false]
      simp only [bind, Except.bind, pure, Except.pure]
      have ihr2 := ihr acc
      simp only [bind, Except.bind, pure, Except.pure] at ihr2
      exact ihr2
    | some (p, w) =>
      rcases regVote_ok_some F loader mid p w hr with ⟨hw, hp, hpo⟩
      simp only [List.filter_cons, hpo, if_true]
      simp only [bind, Except.bind, pure, Except.pure]
      have ihr2 := ihr (acc.1 ++ [p], acc.2 ++ [w])
      simp only [bind, Except.bind, pure, Except.pure] at ihr2
      rw [ihr2]
      simp [hp, hw, List.append_assoc]

theorem collectRegVotes_char (F : Fusion) (loader : String → Member)
    (hok : ∀ mid ∈ F.models_splits.flatten,
      ∃ r, regVote F loader mid = Except.ok r) :
    collectRegVotes F loader = Except.ok
      ((F.models_splits.flatten.filter (probOk loader)).map
        (fun mid => weighScalar F (regScalar loader mid) mid),
       (F.models_splits.flatten.filter (probOk loader)).map
        (modelWeight F)) := by
  have key : ∀ (splits : List (List String)),
      (∀ mid ∈ splits.flatten, ∃ r, regVote F loader mid = Except.ok r) →
      ∀ (acc : List ℚ × List ℚ),
      (splits.foldlM
        (fun acc split => do
          let (votes_split, ws) ← splitVotesReg F loader split acc.2
          pure (acc.1 ++ votes_split, ws))
        acc)
      = Except.ok
          (acc.1 ++ (splits.flatten.filter (probOk loader)).map
            (fun mid => weighScalar F (regScalar loader mid) mid),
           acc.2 ++ (splits.flatten.filter (probOk loader)).map
            (modelWeight F)) := by
    intro splits
    induction splits with
    | nil => intro _ acc; simp [pure, Except.pure]
    | cons split rest ih =>
      intro hok acc
      have hsplit : ∀ mid ∈ split, ∃ r, regVote F loader mid = Except.ok r :=
        fun m hm => hok m (by simp [hm])
      have hrest : ∀ mid ∈ rest.flatten,
          ∃ r, regVote F loader mid = Except.ok r :=
        fun m hm => hok m (by simp [hm])
      have hinner : splitVotesReg F loader split acc.2 = Except.ok
          ((split.filter (probOk loader)).map
            (fun mid => weighScalar F (regScalar loader mid) mid),
           acc.2 ++ (split.filter (probOk loader)).map (modelWeight F)) := by
        simpa [splitVotesReg] using regFold_char F loader split hsplit ([], acc.2)
      simp only [List.foldlM_cons, hinner]
      simp only [bind, Except.bind, pure, Except.pure]
      have ihr2 := ih hrest (acc.1 ++ (split.filter (probOk loader)).map
          (fun mid => weighScalar F (regScalar loader mid) mid),
        acc.2 ++ (split.filter (probOk loader)).map (modelWeight F))
      simp only [bind, Except.bind, pure, Except.pure] at ihr2
      rw [ihr2]
      simp [List.filter_append, List.map_append, List.append_assoc]
  simpa [collectRegVotes] using key F.models_splits hok ([], [])

theorem confSplitFoldl_snd (F : Fusion) (loader : String → Member) :
    ∀ (split : List String) (acc : List (List (String × ℚ)) × List ℚ),
      (split.foldl
        (fun acc mid =>
          match confVote F loader mid with
          | none => acc
          | some (p, w) => (acc.1 ++ [p], acc.2 ++ [w]))
        acc).2 = acc.2 ++ (split.filter (confOk loader)).map (modelWeight F) := by
  intro split
  induction split with
  | nil => intro acc; simp
  | cons mid rest ih =>
    intro acc
    simp only [List.foldl_cons]
    match hco : (loader mid).confOutput with
    | Except.error e =>
      have hcv : confVote F loader mid = none := by simp [confVote, hco]
      have hok : confOk loader mid = false := by simp [confOk, hco]
      rw [hcv, ih acc]
      simp [List.filter_cons, hok]
    | Except.ok p =>
      have hcv : confVote F loader mid = some (p, modelWeight F mid) := by
        simp [confVote, hco]
      have hok : confOk loader mid = true := by simp [confOk, hco]
      rw [hcv, ih (acc.1 ++ [p], acc.2 ++ [modelWeight F mid])]
      simp [List.filter_cons, hok, List.append_assoc]

theorem collectConfVotes_eq (F : Fusion) (loader : String → Member) :
    collectConfVotes F loader =
      (confContribs loader F.models_splits.flatten,
       (F.models_splits.flatten.filter (confOk loader)).map (modelWeight F)) := by
  have hsnd : ∀ (splits : List (List String))
      (acc : List (List (String × ℚ)) × List ℚ),
      ((splits.foldl
        (fun acc split =>
          split.foldl
            (fun acc mid =>
              match confVote F loader mid with
              | none => acc
              | some (p, w) => (acc.1 ++ [p], acc.2 ++ [w]))
            acc)
        acc).2) = acc.2 ++
          (splits.flatten.filter (confOk loader)).map (modelWeight F) := by
    intro splits
    induction splits with
    | nil => intro acc; simp
    | cons split rest ih =>
      intro acc
      simp only [List.foldl_cons]
      rw [ih, confSplitFoldl_snd F loader split acc]
      simp [List.filter_append, List.map_append, List.append_assoc]
  have h1 := collectConfVotes_fst F loader
  have h2 := hsnd F.models_splits ([], [])
  have h2' : (collectConfVotes F loader).2 =
      (F.models_splits.flatten.filter (confOk loader)).map (modelWeight F) := by
    simpa [collectConfVotes] using h2
  exact Prod.ext h1 h2'

/-- C7 (amended): during probability combination only `ValueError` member
failures are swallowed — such a member contributes no vote and no weight and
no error surfaces, the collected votes/weights being exactly those of the
members whose probability call succeeds; a member failure of any other
exception kind propagates out of `predict_probability` (see the
counterexample).  During confidence combination *every* member failure is
swallowed: unconditionally, the collected predictions and weights are
exactly those of the members whose confidence call succeeds, and no error
can surface. -/
theorem member_failure_handling (F : Fusion) (loader : String → Member) :
    ((∀ mid ∈ F.models_splits.flatten,
        (∀ e, (loader mid).probOutput = Except.error e → e = PyErr.valueError) ∧
        (∀ v, (loader mid).probOutput = Except.ok v →
          v.length = (loader mid).class_names.length)) →
      collectClassifVotes F loader = Except.ok
        ((F.models_splits.flatten.filter (probOk loader)).map
          (classifVoteVec F loader),
         (F.models_splits.flatten.filter (probOk loader)).map
          (modelWeight F))) ∧
    ((∀ mid ∈ F.models_splits.flatten,
        (∀ e, (loader mid).probOutput = Except.error e → e = PyErr.valueError) ∧
        (∀ v, (loader mid).probOutput = Except.ok v → v ≠ [])) →
      collectRegVotes F loader = Except.ok
        ((F.models_splits.flatten.filter (probOk loader)).map
          (fun mid => weighScalar F (regScalar loader mid) mid),
         (F.models_splits.flatten.filter (probOk loader)).map
          (modelWeight F))) ∧
    (collectConfVotes F loader =
      (confContribs loader F.models_splits.flatten,
       (F.models_splits.flatten.filter (confOk loader)).map (modelWeight F))) := by
  refine ⟨?_, ?_, collectConfVotes_eq F loader⟩
  · intro hmem
    have hvote : ∀ mid ∈ F.models_splits.flatten,
        (classifVote F loader mid = Except.ok none ∧ probOk loader mid = false) ∨
        (∃ pw, classifVote F loader mid = Except.ok (some pw) ∧
          probOk loader mid = true) := by
      intro mid hmid
      rcases hmem mid hmid with ⟨herr, hlen⟩
      match hp : (loader mid).probOutput with
      | Except.error e =>
        have he := herr e hp
        subst he
        exact Or.inl ⟨by simp [classifVote, hp], by simp [probOk, hp]⟩
      | Except.ok v =>
        by_cases heq : F.class_names = (loader mid).class_names
        · exact Or.inr ⟨(weigh F v mid, modelWeight F mid),
            by simp [classifVote, hp, heq], by simp [probOk, hp]⟩
        · have hwlen : (loader mid).class_names.length ≤
              (weigh F v mid).length := by
            simp [weigh, hlen v hp]
          obtain ⟨out, hout, -, -⟩ := rearrange_spec F.class_names
            (loader mid).class_names (weigh F v mid) hwlen
          exact Or.inr ⟨(out, modelWeight F mid),
            by simp [classifVote, hp, heq, hout], by simp [probOk, hp]⟩
    have hok : ∀ mid ∈ F.models_splits.flatten,
        ∃ r, classifVote F loader mid = Except.ok r := by
      intro mid hmid
      rcases hvote mid hmid with ⟨h1, _⟩ | ⟨pw, h1, _⟩
      · exact ⟨none, h1⟩
      · exact ⟨some pw, h1⟩
    have hfilter : F.models_splits.flatten.filter (voteSome F loader) =
        F.models_splits.flatten.filter (probOk loader) := by
      apply List.filter_congr
      intro mid hmid
      rcases hvote mid hmid with ⟨h1, h2⟩ | ⟨pw, h1, h2⟩
      · simp [voteSome, h1, h2]
      · simp [voteSome, h1, h2]
    rw [collectClassifVotes_char F loader hok, hfilter]
  · intro hmem
    have hok : ∀ mid ∈ F.models_splits.flatten,
        ∃ r, regVote F loader mid = Except.ok r := by
      intro mid hmid
      rcases hmem mid hmid with ⟨herr, hne⟩
      match hp : (loader mid).probOutput with
      | Except.error e =>
        have he := herr e hp
        subst he
        exact ⟨none, by simp [regVote, hp]⟩
      | Except.ok v =>
        match v with
        | [] => exact absurd rfl (hne [] hp)
        | x :: t =>
          exact ⟨some (weighScalar F x mid, modelWeight F mid),
            by simp [regVote, hp]⟩
    exact collectRegVotes_char F loader hok

/-- Counterexample for C7: a member whose probability call raises an
exception that is not a `ValueError` (here modelled as `otherError`, e.g. a
`TypeError`) makes `predict_probability` itself fail — the error surfaces to
the caller instead of being swallowed. -/
theorem member_failure_counterexample :
    predict_probability_classif fusionAB loaderCrash =
      Except.error PyErr.otherError := by
  simp [predict_probability_classif, collectClassifVotes, splitVotesClassif,
        classifVote, fusionAB, loaderCrash, List.foldlM_cons, List.foldlM_nil,
        bind, Except.bind, pure, Except.pure]

/-- Witness for C7: with member 1 failing on a `ValueError` and member 2
succeeding, the collected votes and weights come from member 2 alone. -/
theorem member_failure_handling_witness :
    collectClassifVotes fusionAB loaderSkip = Except.ok
      ((fusionAB.models_splits.flatten.filter (probOk loaderSkip)).map
        (classifVoteVec fusionAB loaderSkip),
       (fusionAB.models_splits.flatten.filter (probOk loaderSkip)).map
        (modelWeight fusionAB)) ∧
    fusionAB.models_splits.flatten.filter (probOk loaderSkip) = ["m2"] := by
  constructor
  · refine (member_failure_handling fusionAB loaderSkip).1 ?_
    intro mid hmid
    simp only [fusionAB, List.flatten, List.append_nil] at hmid
    rcases List.mem_cons.mp hmid with h | h
    · subst h
      constructor
      · intro e he
        have he2 : PyErr.valueError = e := by simpa [loaderSkip] using he
        exact he2.symm
      · intro v hv
        simp [loaderSkip] at hv
    · have h2 : mid = "m2" := by simpa using h
      subst h2
      constructor
      · intro e he
        simp [loaderSkip] at he
      · intro v hv
        simp only [loaderSkip, if_neg (by decide : ¬ ("m2" : String) = "m1"),
          Except.ok.injEq] at hv
        subst hv
        simp [loaderSkip]
  · simp [fusionAB, probOk, loaderSkip]

/-- C2 (amended): for a regression fusion whose members either produce a
nonempty output or fail with `ValueError`, `predict_probability` returns a
one-element result holding the sum of the contributing members' scalar
outputs, each weighted by `weights[model_ids.index(id)]` (the weight at the
*first* index of the member's id in `model_ids`); the sum is divided by the
total contributing weight only when that total is *strictly positive* — for
a total weight of zero *or negative* the division is skipped and the raw
weighted sum is returned (so for a negative total the result is not the
weighted mean; see the counterexample). -/
theorem predict_probability_reg_spec (F : Fusion) (loader : String → Member)
    (hmem : ∀ mid ∈ F.models_splits.flatten,
      (∀ e, (loader mid).probOutput = Except.error e → e = PyErr.valueError) ∧
      (∀ v, (loader mid).probOutput = Except.ok v → v ≠ [])) :
    predict_probability_reg F loader = Except.ok
      [if 0 < ((F.models_splits.flatten.filter (probOk loader)).map
            (modelWeight F)).sum
       then ((F.models_splits.flatten.filter (probOk loader)).map
            (fun mid => weighScalar F (regScalar loader mid) mid)).sum /
          ((F.models_splits.flatten.filter (probOk loader)).map
            (modelWeight F)).sum
       else ((F.models_splits.flatten.filter (probOk loader)).map
            (fun mid => weighScalar F (regScalar loader mid) mid)).sum] := by
  have hok : ∀ mid ∈ F.models_splits.flatten,
      ∃ r, regVote F loader mid = Except.ok r := by
    intro mid hmid
    rcases hmem mid hmid with ⟨herr, hne⟩
    match hp : (loader mid).probOutput with
    | Except.error e =>
      have he := herr e hp
      subst he
      exact ⟨none, by simp [regVote, hp]⟩
    | Except.ok v =>
      match v with
      | [] => exact absurd rfl (hne [] hp)
      | x :: t =>
        exact ⟨some (weighScalar F x mid, modelWeight F mid),
          by simp [regVote, hp]⟩
  have hchar := collectRegVotes_char F loader hok
  simp only [predict_probability_reg, hchar, bind, Except.bind, pure,
    Except.pure, gt_iff_lt]

/-- Counterexample for C2: with contributing weights 1 and -2 and member
outputs 3 and 5, the total contributing weight is -1, which is neither
positive nor zero; the code skips the division and returns the raw weighted
sum -7, while the weighted mean of the members' outputs is 7. -/
theorem predict_probability_reg_counterexample :
    predict_probability_reg fusionRegNeg loaderRegNeg = Except.ok [-7] ∧
    ((1 : ℚ) * 3 + (-2) * 5) / ((1 : ℚ) + (-2)) = 7 ∧
    (-7 : ℚ) ≠ 7 := by
  refine ⟨?_, by norm_num, by norm_num⟩
  have hm1 : loaderRegNeg "m1" =
      { class_names := [], probOutput := Except.ok [3],
        confOutput := Except.error PyErr.otherError } := rfl
  have hm2 : loaderRegNeg "m2" =
      { class_names := [], probOutput := Except.ok [5],
        confOutput := Except.error PyErr.otherError } := rfl
  have hw1 : modelWeight fusionRegNeg "m1" = 1 := rfl
  have hw2 : modelWeight fusionRegNeg "m2" = -2 := rfl
  have hsp : fusionRegNeg.models_splits = [["m1", "m2"]] := rfl
  simp only [predict_probability_reg, collectRegVotes, hsp, splitVotesReg,
    List.foldlM_cons, List.foldlM_nil, regVote, hm1, hm2, hw1, hw2,
    weighScalar, bind, Except.bind, pure, Except.pure]
  norm_num

/-- Witness for C2: weights 1 and 3 with member outputs 10 and 20 give
(1*10 + 3*20) / (1 + 3) = 35/2. -/
theorem predict_probability_reg_spec_witness :
    predict_probability_reg fusionReg loaderReg = Except.ok [35/2] := by
  have happ := predict_probability_reg_spec fusionReg loaderReg ?_
  · rw [happ]
    have hw1 : modelWeight fusionReg "m1" = 1 := rfl
    have hw2 : modelWeight fusionReg "m2" = 3 := rfl
    have hr1 : regScalar loaderReg "m1" = 10 := rfl
    have hr2 : regScalar loaderReg "m2" = 20 := rfl
    have hp1 : probOk loaderReg "m1" = true := rfl
    have hp2 : probOk loaderReg "m2" = true := rfl
    have hsp : fusionReg.models_splits = [["m1", "m2"]] := rfl
    simp only [hsp, List.flatten, List.append_nil, List.filter_cons,
      List.filter_nil, hp1, hp2, if_true, List.map_cons, List.map_nil,
      weighScalar, hr1, hr2, hw1, hw2]
    norm_num
  · intro mid hmid
    have hm1 : loaderReg "m1" =
        { class_names := [], probOutput := Except.ok [10],
          confOutput := Except.error PyErr.otherError } := rfl
    have hm2 : loaderReg "m2" =
        { class_names := [], probOutput := Except.ok [20],
          confOutput := Except.error PyErr.otherError } := rfl
    have hsp : fusionReg.models_splits = [["m1", "m2"]] := rfl
    rw [hsp] at hmid
    simp only [List.flatten, List.append_nil] at hmid
    rcases List.mem_cons.mp hmid with h | h
    · subst h
      refine ⟨fun e he => ?_, fun v hv => ?_⟩
      · rw [hm1] at he
        simp at he
      · rw [hm1] at hv
        simp only [Except.ok.injEq] at hv
        subst hv
        simp
    · have h2 : mid = "m2" := by simpa using h
      subst h2
      refine ⟨fun e he => ?_, fun v hv => ?_⟩
      · rw [hm2] at he
        simp at he
      · rw [hm2] at hv
        simp only [Except.ok.injEq] at hv
        subst hv
        simp

theorem range_map_getD_self (v : List ℚ) :
    (List.range v.length).map (fun i => v.getD i 0) = v := by
  apply List.ext_getElem
  · simp
  · intro i h1 h2
    simp only [List.getElem_map, List.getElem_range,
      List.getD_eq_getElem?_getD]
    simp only [List.length_map, List.length_range] at h1
    rw [List.getElem?_eq_getElem h2]
    rfl

theorem sum_sum_swap (n : ℕ) :
    ∀ (votes : List (List ℚ)), (∀ v ∈ votes, v.length = n) →
      ((List.range n).map
        (fun i => (votes.map (fun v => v.getD i 0)).sum)).sum =
      (votes.map List.sum).sum := by
  intro votes
  induction votes with
  | nil => intro _; simp
  | cons v vs ih =>
    intro h
    have hv : v.length = n := h v (List.mem_cons_self _ _)
    have ihr := ih (fun u hu => h u (List.mem_cons_of_mem _ hu))
    simp only [List.map_cons, List.sum_cons]
    have hsplit : ((List.range n).map
        (fun i => v.getD i 0 + (vs.map (fun u => u.getD i 0)).sum)).sum =
        ((List.range n).map (fun i => v.getD i 0)).sum +
        ((List.range n).map (fun i => (vs.map (fun u => u.getD i 0)).sum)).sum :=
      List.sum_map_add
    rw [hsplit, ihr]
    rw [← hv, range_map_getD_self]

theorem weigh_length (F : Fusion) (v : List ℚ) (mid : String) :
    (weigh F v mid).length = v.length := by
  simp [weigh]

theorem weigh_nonneg (F : Fusion) (v : List ℚ) (mid : String)
    (hv : ∀ x ∈ v, 0 ≤ x) (hw : 0 ≤ modelWeight F mid) :
    ∀ x ∈ weigh F v mid, 0 ≤ x := by
  intro x hx
  simp only [weigh, List.mem_map] at hx
  rcases hx with ⟨y, hy, hxy⟩
  exact hxy ▸ mul_nonneg (hv y hy) hw

theorem classifVoteVec_props (F : Fusion) (loader : String → Member)
    (mid : String) (hvs : voteSome F loader mid = true)
    (hnn : ∀ v, (loader mid).probOutput = Except.ok v →
      (∀ x ∈ v, 0 ≤ x) ∧ v.length = (loader mid).class_names.length)
    (hw : 0 ≤ modelWeight F mid) :
    (classifVoteVec F loader mid).length = F.class_names.length ∧
    ∀ x ∈ classifVoteVec F loader mid, 0 ≤ x := by
  match hcv : classifVote F loader mid with
  | Except.error e => simp [voteSome, hcv] at hvs
  | Except.ok none => simp [voteSome, hcv] at hvs
  | Except.ok (some (p, w)) =>
    rcases classifVote_ok_some F loader mid p w hcv with ⟨_, hvec, v, hv, hcase⟩
    rcases hnn v hv with ⟨hvnn, hvlen⟩
    rw [hvec]
    rcases hcase with ⟨heq, hp⟩ | ⟨heq, hp⟩
    · subst hp
      constructor
      · rw [weigh_length, hvlen, heq]
      · exact weigh_nonneg F v mid hvnn hw
    · have hwlen : (loader mid).class_names.length ≤ (weigh F v mid).length := by
        rw [weigh_length, hvlen]
      rcases rearrange_spec F.class_names (loader mid).class_names
        (weigh F v mid) hwlen with ⟨out, hout, hlen2, hvals⟩
      rw [hp] at hout
      have hpo : out = p := by
        have h2 : p = out := by simpa using hout
        exact h2.symm
      subst hpo
      refine ⟨hlen2, ?_⟩
      intro x hx
      rcases List.getElem_of_mem hx with ⟨i, hi, hxi⟩
      have hic : i < F.class_names.length := hlen2 ▸ hi
      have hdest : F.class_names[i]? = some F.class_names[i] :=
        List.getElem?_eq_getElem hic
      have hxget : out[i]? = some x := by
        rw [List.getElem?_eq_getElem hi, hxi]
      by_cases hmem2 : F.class_names[i] ∈ (loader mid).class_names
      · have := (hvals i F.class_names[i] hdest).2 hmem2
        rw [hxget] at this
        have hx2 : x = (weigh F v mid).getD
            ((loader mid).class_names.indexOf F.class_names[i]) 0 := by
          simpa using this
        rw [hx2, List.getD_eq_getElem?_getD]
        match hg : (weigh F v mid)[(loader mid).class_names.indexOf
            F.class_names[i]]? with
        | none => simp
        | some y =>
          have hy : y ∈ weigh F v mid := List.getElem?_mem hg
          simpa using weigh_nonneg F v mid hvnn hw y hy
      · have := (hvals i F.class_names[i] hdest).1 hmem2
        rw [hxget] at this
        have hx2 : x = 0 := by simpa using this
        rw [hx2]

theorem classifVote_total (F : Fusion) (loader : String → Member) (mid : String)
    (herr : ∀ e, (loader mid).probOutput = Except.error e → e = PyErr.valueError)
    (hlen : ∀ v, (loader mid).probOutput = Except.ok v →
      v.length = (loader mid).class_names.length) :
    ∃ r, classifVote F loader mid = Except.ok r := by
  match hp : (loader mid).probOutput with
  | Except.error e =>
    have he := herr e hp
    subst he
    exact ⟨none, by simp [classifVote, hp]⟩
  | Except.ok v =>
    by_cases heq : F.class_names = (loader mid).class_names
    · exact ⟨some (weigh F v mid, modelWeight F mid),
        by simp [classifVote, hp, heq]⟩
    · have hwlen : (loader mid).class_names.length ≤ (weigh F v mid).length := by
        rw [weigh_length, hlen v hp]
      obtain ⟨out, hout, -, -⟩ := rearrange_spec F.class_names
        (loader mid).class_names (weigh F v mid) hwlen
      exact ⟨some (out, modelWeight F mid), by simp [classifVote, hp, heq, hout]⟩

theorem combine_props (n : ℕ) (votes : List (List ℚ))
    (hv : ∀ v ∈ votes, v.length = n ∧ ∀ x ∈ v, 0 ≤ x)
    (hpos : 0 < (votes.map List.sum).sum) :
    (combine_to_distribution n votes).length = n ∧
    (∀ x ∈ combine_to_distribution n votes, 0 ≤ x ∧ x ≤ 1) ∧
    (combine_to_distribution n votes).sum = 1 := by
  have htot : ((List.range n).map
      (fun i => (votes.map (fun v => v.getD i 0)).sum)).sum =
      (votes.map List.sum).sum :=
    sum_sum_swap n votes (fun v hvm => (hv v hvm).1)
  set sums := (List.range n).map
      (fun i => (votes.map (fun v => v.getD i 0)).sum) with hsums
  have hpos2 : 0 < sums.sum := htot ▸ hpos
  have hnn : ∀ s ∈ sums, 0 ≤ s := by
    intro s hs
    rw [hsums] at hs
    rcases List.mem_map.mp hs with ⟨i, _, hsi⟩
    subst hsi
    apply List.sum_nonneg
    intro x hx
    rcases List.mem_map.mp hx with ⟨v, hvm, hxv⟩
    subst hxv
    rw [List.getD_eq_getElem?_getD]
    match hg : v[i]? with
    | none => simp
    | some y =>
      have hy : y ∈ v := List.getElem?_mem hg
      simpa using (hv v hvm).2 y hy
  have hle : ∀ s ∈ sums, s ≤ sums.sum := List.single_le_sum hnn
  refine ⟨?_, ?_, ?_⟩
  · simp [combine_to_distribution, ← hsums]
  · intro x hx
    simp only [combine_to_distribution, ← hsums, List.mem_map] at hx
    rcases hx with ⟨s, hs, hxs⟩
    subst hxs
    constructor
    · exact div_nonneg (hnn s hs) (le_of_lt hpos2)
    · exact (div_le_one hpos2).mpr (hle s hs)
  · show ((sums.map (· / sums.sum))).sum = 1
    have : (sums.map (· / sums.sum)).sum = sums.sum / sums.sum := by
      simp only [div_eq_mul_inv]
      have h2 := List.sum_map_mul_right sums id (sums.sum)⁻¹
      simpa using h2
    rw [this, div_self (ne_of_gt hpos2)]

/-- C1 (amended): for a classification fusion whose members produce
nonnegative probability vectors of the right length (or fail with
`ValueError`), whose member weights are nonnegative, and whose combined
(weighted, reprojected) probability mass is strictly positive,
`predict_probability(compact=False)` returns exactly one entry per canonical
class in the sorted `class_names` order, each probability lies in `[0, 1]`,
and the probabilities sum exactly to 1.  (The nonnegativity and
positive-mass provisos are necessary: see the counterexample, where a
negative member weight makes a probability leave `[0, 1]` even though a
member contributes a vote.) -/
theorem predict_probability_classif_distribution (F : Fusion)
    (loader : String → Member)
    (hmem : ∀ mid ∈ F.models_splits.flatten,
      (∀ e, (loader mid).probOutput = Except.error e → e = PyErr.valueError) ∧
      (∀ v, (loader mid).probOutput = Except.ok v →
        (∀ x ∈ v, 0 ≤ x) ∧ v.length = (loader mid).class_names.length))
    (hw : ∀ mid ∈ F.models_splits.flatten, 0 ≤ modelWeight F mid)
    (hpos : 0 < ((F.models_splits.flatten.filter (voteSome F loader)).map
      (fun mid => (classifVoteVec F loader mid).sum)).sum) :
    ∃ out, predict_probability_classif F loader = Except.ok out ∧
      out.map Prod.fst = F.class_names ∧
      out.length = F.class_names.length ∧
      (∀ e ∈ out, 0 ≤ e.2 ∧ e.2 ≤ 1) ∧
      (out.map Prod.snd).sum = 1 := by
  have hok : ∀ mid ∈ F.models_splits.flatten,
      ∃ r, classifVote F loader mid = Except.ok r := by
    intro mid hmid
    exact classifVote_total F loader mid (hmem mid hmid).1
      (fun v hv => ((hmem mid hmid).2 v hv).2)
  have hchar := collectClassifVotes_char F loader hok
  set C := F.models_splits.flatten.filter (voteSome F loader) with hC
  set votes := C.map (classifVoteVec F loader) with hvotes
  have hvprops : ∀ v ∈ votes, v.length = F.class_names.length ∧
      ∀ x ∈ v, 0 ≤ x := by
    intro v hvm
    rcases List.mem_map.mp hvm with ⟨mid, hmidC, hvmid⟩
    subst hvmid
    have hmid : mid ∈ F.models_splits.flatten :=
      List.mem_of_mem_filter hmidC
    have hvs : voteSome F loader mid = true := List.of_mem_filter hmidC
    exact classifVoteVec_props F loader mid hvs
      (fun v hv => (hmem mid hmid).2 v hv) (hw mid hmid)
  have hpos2 : 0 < (votes.map List.sum).sum := by
    rw [hvotes, List.map_map]
    exact hpos
  rcases combine_props F.class_names.length votes hvprops hpos2 with
    ⟨hclen, hcvals, hcsum⟩
  refine ⟨F.class_names.zip (combine_to_distribution F.class_names.length votes),
    ?_, ?_, ?_, ?_, ?_⟩
  · simp only [predict_probability_classif, hchar, bind, Except.bind, pure,
      Except.pure]
  · exact List.map_fst_zip _ _ (le_of_eq hclen.symm)
  · rw [List.length_zip, hclen, Nat.min_self]
  · intro e he
    rcases List.of_mem_zip he with ⟨_, he2⟩
    exact hcvals e.2 he2
  · rw [List.map_snd_zip _ _ (le_of_eq hclen), hcsum]

/-- Counterexample for C1: with member weights 2 and -1 and two members
voting the valid degenerate distributions [1, 0] and [0, 1], both members
contribute a vote, yet the combined output is [("A", 2), ("B", -1)] — the
probability 2 is not in [0, 1] (and -1 is negative). -/
theorem predict_probability_classif_counterexample :
    predict_probability_classif fusionNegW loaderNegW =
      Except.ok [("A", 2), ("B", -1)] ∧
    ¬ ((2 : ℚ) ≤ 1) := by
  refine ⟨?_, by norm_num⟩
  simp [predict_probability_classif, collectClassifVotes, splitVotesClassif,
        classifVote, fusionNegW, loaderNegW, combine_to_distribution, weigh,
        modelWeight, List.foldlM, List.range, List.range.loop, bind,
        Except.bind, pure, Except.pure]
  norm_num

/-- Witness for C1 at the spec's §8 scenario (weights 1 and 3). -/
theorem predict_probability_classif_distribution_witness :
    ∃ out, predict_probability_classif fusionAB loaderAB = Except.ok out ∧
      out.map Prod.fst = fusionAB.class_names ∧
      out.length = fusionAB.class_names.length ∧
      (∀ e ∈ out, 0 ≤ e.2 ∧ e.2 ≤ 1) ∧
      (out.map Prod.snd).sum = 1 := by
  have hm1 : loaderAB "m1" =
      { class_names := ["A", "B"]
        probOutput := Except.ok [4/5, 1/5]
        confOutput := Except.ok [("A", 7/10), ("B", 3/10)] } := rfl
  have hm2 : loaderAB "m2" =
      { class_names := ["A", "B"]
        probOutput := Except.ok [2/5, 3/5]
        confOutput := Except.ok [("A", 1/2), ("B", 1/2)] } := rfl
  have hw1 : modelWeight fusionAB "m1" = 1 := rfl
  have hw2 : modelWeight fusionAB "m2" = 3 := rfl
  have hsp : fusionAB.models_splits = [["m1", "m2"]] := rfl
  apply predict_probability_classif_distribution
  · intro mid hmid
    rw [hsp] at hmid
    simp only [List.flatten, List.append_nil] at hmid
    rcases List.mem_cons.mp hmid with h | h
    · subst h
      refine ⟨fun e he => ?_, fun v hv => ?_⟩
      · rw [hm1] at he
        simp at he
      · rw [hm1] at hv
        simp only [Except.ok.injEq] at hv
        subst hv
        refine ⟨?_, by simp [hm1]⟩
        intro x hx
        rcases List.mem_cons.mp hx with h | h
        · rw [h]; norm_num
        · rcases List.mem_cons.mp h with h | h
          · rw [h]; norm_num
          · simp at h
    · have h2 : mid = "m2" := by simpa using h
      subst h2
      refine ⟨fun e he => ?_, fun v hv => ?_⟩
      · rw [hm2] at he
        simp at he
      · rw [hm2] at hv
        simp only [Except.ok.injEq] at hv
        subst hv
        refine ⟨?_, by simp [hm2]⟩
        intro x hx
        rcases List.mem_cons.mp hx with h | h
        · rw [h]; norm_num
        · rcases List.mem_cons.mp h with h | h
          · rw [h]; norm_num
          · simp at h
  · intro mid hmid
    rw [hsp] at hmid
    simp only [List.flatten, List.append_nil] at hmid
    rcases List.mem_cons.mp hmid with h | h
    · subst h
      rw [hw1]
      norm_num
    · have h2 : mid = "m2" := by simpa using h
      subst h2
      rw [hw2]
      norm_num
  · have hcn : fusionAB.class_names = ["A", "B"] := rfl
    have hcv1 : classifVote fusionAB loaderAB "m1" =
        Except.ok (some ([4/5 * 1, 1/5 * 1], 1)) := by
      simp [classifVote, hm1, weigh, hw1, hcn]
    have hcv2 : classifVote fusionAB loaderAB "m2" =
        Except.ok (some ([2/5 * 3, 3/5 * 3], 3)) := by
      simp [classifVote, hm2, weigh, hw2, hcn]
    have hv1 : voteSome fusionAB loaderAB "m1" = true := by
      simp [voteSome, hcv1]
    have hv2 : voteSome fusionAB loaderAB "m2" = true := by
      simp [voteSome, hcv2]
    have hvv1 : classifVoteVec fusionAB loaderAB "m1" = [4/5 * 1, 1/5 * 1] := by
      simp [classifVoteVec, hcv1]
    have hvv2 : classifVoteVec fusionAB loaderAB "m2" = [2/5 * 3, 3/5 * 3] := by
      simp [classifVoteVec, hcv2]
    rw [hsp]
    simp only [List.flatten, List.append_nil, List.filter_cons,
      List.filter_nil, hv1, hv2, if_true, List.map_cons, List.map_nil,
      hvv1, hvv2, List.sum_cons, List.sum_nil]
    norm_num

theorem standardSortLE_trans :
    ∀ a b c : String × ℚ, standardSortLE a b → standardSortLE b c →
      standardSortLE a c := by
  intro a b c hab hbc
  simp only [standardSortLE, decide_eq_true_eq] at *
  exact le_trans hbc hab

theorem standardSortLE_total :
    ∀ a b : String × ℚ, (standardSortLE a b || standardSortLE b a) = true := by
  intro a b
  simp only [standardSortLE, Bool.or_eq_true, decide_eq_true_eq]
  exact le_total b.2 a.2

theorem enumLE_standard_iff (x y : ℕ × (String × ℚ)) :
    List.enumLE standardSortLE x y = true ↔
      (y.2.2 < x.2.2 ∨ (x.2.2 = y.2.2 ∧ x.1 ≤ y.1)) := by
  simp only [List.enumLE, standardSortLE]
  by_cases h1 : y.2.2 ≤ x.2.2
  · by_cases h2 : x.2.2 ≤ y.2.2
    · have heq : x.2.2 = y.2.2 := le_antisymm h2 h1
      rw [if_pos (by simpa using h1), if_pos (by simpa using h2)]
      simp only [decide_eq_true_eq]
      constructor
      · intro h3
        exact Or.inr ⟨heq, h3⟩
      · intro h3
        rcases h3 with h3 | ⟨_, h3⟩
        · exact absurd h3 (not_lt.mpr h2)
        · exact h3
    · have hlt : y.2.2 < x.2.2 :=
        lt_of_le_of_ne h1 (fun he => h2 (le_of_eq he.symm))
      rw [if_pos (by simpa using h1), if_neg (by simpa using h2)]
      simp only [true_iff]
      exact Or.inl hlt
  · have hlt : x.2.2 < y.2.2 := lt_of_not_le h1
    rw [if_neg (by simpa using h1)]
    simp only [Bool.false_eq_true, false_iff]
    intro h3
    rcases h3 with h3 | ⟨h3, _⟩
    · exact absurd h3 (not_lt.mpr (le_of_lt hlt))
    · exact absurd h3 (ne_of_lt hlt)

theorem opSortLE_iff (F : Fusion) (a b : String × ℚ) :
    opSortLE F a b = true ↔
      b.2 < a.2 ∨ (a.2 = b.2 ∧
        F.objective_categories.indexOf a.1 ≤
          F.objective_categories.indexOf b.1) := by
  simp only [opSortLE, decide_eq_true_eq, sortPredictions, sort_categories]
  by_cases h : a.2 = b.2
  · simp only [if_pos h]
    by_cases h2 : F.objective_categories.indexOf a.1 <
        F.objective_categories.indexOf b.1
    · simp only [if_pos h2]
      constructor
      · intro _
        exact Or.inr ⟨h, le_of_lt h2⟩
      · intro _
        norm_num
    · simp only [if_neg h2]
      by_cases h3 : F.objective_categories.indexOf b.1 <
          F.objective_categories.indexOf a.1
      · simp only [if_pos h3]
        constructor
        · intro hc
          norm_num at hc
        · intro hc
          rcases hc with hc | ⟨_, hc⟩
          · rw [h] at hc
            exact absurd hc (lt_irrefl _)
          · omega
      · simp only [if_neg h3]
        constructor
        · intro _
          exact Or.inr ⟨h, by omega⟩
        · intro _
          norm_num
  · simp only [if_neg h]
    by_cases h4 : b.2 > a.2
    · simp only [if_pos h4]
      constructor
      · intro hc
        norm_num at hc
      · intro hc
        rcases hc with hc | ⟨hc, _⟩
        · exact absurd (lt_trans hc h4) (lt_irrefl _)
        · exact absurd hc h
    · simp only [if_neg h4]
      constructor
      · intro _
        exact Or.inl (lt_of_le_of_ne (le_of_not_lt h4) (fun he => h he.symm))
      · intro _
        norm_num

theorem opSortLE_trans (F : Fusion) :
    ∀ a b c : String × ℚ, opSortLE F a b → opSortLE F b c →
      opSortLE F a c := by
  intro a b c hab hbc
  rw [opSortLE_iff] at hab hbc ⊢
  rcases hab with hab | ⟨hab, hab2⟩ <;> rcases hbc with hbc | ⟨hbc, hbc2⟩
  · exact Or.inl (lt_trans hbc hab)
  · exact Or.inl (hbc ▸ hab)
  · exact Or.inl (hab ▸ hbc)
  · exact Or.inr ⟨hab.trans hbc, le_trans hab2 hbc2⟩

theorem opSortLE_total (F : Fusion) :
    ∀ a b : String × ℚ, (opSortLE F a b || opSortLE F b a) = true := by
  intro a b
  rw [Bool.or_eq_true, opSortLE_iff, opSortLE_iff]
  rcases lt_trichotomy a.2 b.2 with h | h | h
  · exact Or.inr (Or.inl h)
  · rcases le_total (F.objective_categories.indexOf a.1)
      (F.objective_categories.indexOf b.1) with h2 | h2
    · exact Or.inl (Or.inr ⟨h, h2⟩)
    · exact Or.inr (Or.inr ⟨h.symm, h2⟩)
  · exact Or.inl (Or.inl h)

theorem combine_length (n : ℕ) (votes : List (List ℚ)) :
    (combine_to_distribution n votes).length = n := by
  simp [combine_to_distribution]

theorem predict_probability_classif_shape (F : Fusion)
    (loader : String → Member) (out : List (String × ℚ))
    (h : predict_probability_classif F loader = Except.ok out) :
    out.map Prod.fst = F.class_names ∧
    out.length = F.class_names.length := by
  match hc : collectClassifVotes F loader with
  | Except.error e =>
    simp only [predict_probability_classif, hc, bind, Except.bind] at h
    exact Except.noConfusion h
  | Except.ok vw =>
    simp only [predict_probability_classif, hc, bind, Except.bind, pure,
      Except.pure, Except.ok.injEq] at h
    subst h
    constructor
    · exact List.map_fst_zip _ _ (le_of_eq (combine_length _ _).symm)
    · rw [List.length_zip, combine_length, Nat.min_self]

/-- C6 (amended): entries with a higher probability always rank before
entries with a lower one on both paths, but the two paths break exact ties
differently.  The standard branch of `_predict` sorts with *no* categorical
tie-break: being a stable sort on the probability key alone, it returns the
first entry attaining the maximal probability in the probability list's own
(sorted `class_names`) order — not the objective field's raw category order
(see the counterexample).  The comparator used by `predict_operating` does
rank equal-probability entries by position in the objective field's raw
(pre-sort) category list. -/
theorem tiebreak_spec (F : Fusion) (loader : String → Member)
    (out : List (String × ℚ))
    (hout : predict_probability_classif F loader = Except.ok out)
    (hne : out ≠ []) :
    (∃ (top : String × ℚ) (i : ℕ), predictClassif F loader = Except.ok top ∧
      out[i]? = some top ∧
      (∀ (j : ℕ) (pe : String × ℚ), j < i → out[j]? = some pe →
        pe.2 < top.2) ∧
      (∀ e ∈ out, e.2 ≤ top.2)) ∧
    (∀ a b : String × ℚ, a.2 = b.2 →
      (opSortLE F a b = true ↔
        F.objective_categories.indexOf a.1 ≤
          F.objective_categories.indexOf b.1)) ∧
    (∀ a b : String × ℚ, b.2 < a.2 →
      opSortLE F a b = true ∧ opSortLE F b a = false) := by
  refine ⟨?_, ?_, ?_⟩
  · have htrans := List.enumLE_trans standardSortLE_trans
    have htotal := List.enumLE_total standardSortLE_total
    have hperm := List.mergeSort_perm out.enum (List.enumLE standardSortLE)
    have hsorted := List.sorted_mergeSort htrans htotal out.enum
    have hmapeq : (out.enum.mergeSort (List.enumLE standardSortLE)).map
        (fun x => x.2) = out.mergeSort standardSortLE := List.mergeSort_enum
    have hlen : (out.enum.mergeSort (List.enumLE standardSortLE)).length =
        out.length := by
      rw [List.length_mergeSort, List.enum_length]
    match hs : out.enum.mergeSort (List.enumLE standardSortLE) with
    | [] =>
      rw [hs] at hlen
      simp only [List.length_nil] at hlen
      exact absurd (List.length_eq_zero.mp hlen.symm) hne
    | (i0, e0) :: tail =>
      have hsortl : out.mergeSort standardSortLE = e0 :: tail.map (fun x => x.2) := by
        rw [← hmapeq, hs]
        rfl
      have hhead : ∀ x ∈ tail, List.enumLE standardSortLE (i0, e0) x = true := by
        rw [hs] at hsorted
        exact fun x hx => List.rel_of_pairwise_cons hsorted hx
      have hkey : ∀ (j : ℕ) (pe : String × ℚ), out[j]? = some pe →
          (j, pe) ≠ (i0, e0) →
          pe.2 ≤ e0.2 ∧ (pe.2 = e0.2 → i0 ≤ j) := by
        intro j pe hj hne2
        have hmem : (j, pe) ∈ out.enum := List.mem_enum_iff_getElem?.mpr hj
        have hmem2 : (j, pe) ∈ (i0, e0) :: tail := by
          rw [← hs]
          exact (List.mem_mergeSort).mpr hmem
        rcases List.mem_cons.mp hmem2 with h | h
        · exact absurd h hne2
        · have := hhead _ h
          rw [enumLE_standard_iff] at this
          rcases this with h2 | ⟨h2, h3⟩
          · exact ⟨le_of_lt h2, fun he => absurd he (ne_of_lt h2)⟩
          · exact ⟨le_of_eq h2.symm, fun _ => h3⟩
      have hmemhead : (i0, e0) ∈ out.enum := by
        have : (i0, e0) ∈ (i0, e0) :: tail := List.mem_cons_self _ _
        rw [← hs] at this
        exact (List.mem_mergeSort).mp this
      have hget0 : out[i0]? = some e0 := List.mem_enum_iff_getElem?.mp hmemhead
      refine ⟨e0, i0, ?_, hget0, ?_, ?_⟩
      · simp only [predictClassif, hout, bind, Except.bind, hsortl, pure,
          Except.pure]
      · intro j pe hji hj
        have hne2 : (j, pe) ≠ (i0, e0) := by
          intro he
          have : j = i0 := congrArg Prod.fst he
          omega
        rcases hkey j pe hj hne2 with ⟨h1, h2⟩
        rcases lt_or_eq_of_le h1 with h | h
        · exact h
        · exact absurd (h2 h) (by omega)
      · intro e he
        rcases List.getElem_of_mem he with ⟨j, hjl, hje⟩
        have hj : out[j]? = some e := by
          rw [List.getElem?_eq_getElem hjl, hje]
        by_cases hne2 : (j, e) = (i0, e0)
        · have : e = e0 := congrArg Prod.snd hne2
          rw [this]
        · exact (hkey j e hj hne2).1
  · intro a b hab
    rw [opSortLE_iff]
    constructor
    · intro h
      rcases h with h | ⟨_, h⟩
      · rw [hab] at h
        exact absurd h (lt_irrefl _)
      · exact h
    · intro h
      exact Or.inr ⟨hab, h⟩
  · intro a b hba
    constructor
    · rw [opSortLE_iff]
      exact Or.inl hba
    · rw [← Bool.not_eq_true, opSortLE_iff]
      intro h
      rcases h with h | ⟨h, _⟩
      · exact absurd (lt_trans h hba) (lt_irrefl _)
      · exact absurd h.symm (ne_of_gt hba)

/-- Counterexample for C6: a two-class fusion with sorted classes `a, b` but
raw category order `b, a`, and an exact probability tie.  The standard
`_predict` selection returns `a` (stable sort on probability alone keeps the
sorted class order), while the raw-category-order tie-break — the one
`predict_operating`'s comparator implements — ranks `b` first; so the
standard path does *not* resolve ties by the objective field's raw category
order. -/
theorem standard_tiebreak_counterexample :
    predictClassif fusion2 loader2 = Except.ok ("a", 1/2) ∧
    ([(("a" : String), (1:ℚ)/2), ("b", 1/2)].mergeSort (opSortLE fusion2)) =
      [("b", 1/2), ("a", 1/2)] ∧
    ("a" : String) ≠ "b" := by
  refine ⟨?_, ?_, by decide⟩
  · have hpp : predict_probability_classif fusion2 loader2 =
        Except.ok [("a", 1/2), ("b", 1/2)] := by
      simp [predict_probability_classif, collectClassifVotes,
        splitVotesClassif, classifVote, fusion2, loader2,
        combine_to_distribution, weigh, modelWeight, List.foldlM, List.range,
        List.range.loop, bind, Except.bind, pure, Except.pure]
      norm_num
    simp only [predictClassif, hpp, bind, Except.bind]
    rw [List.mergeSort]
    simp [List.splitInTwo, List.splitAt, List.splitAt.go, List.mergeSort,
      List.merge, standardSortLE, pure, Except.pure]
  · rw [List.mergeSort]
    simp [List.splitInTwo, List.splitAt, List.splitAt.go, List.mergeSort,
      List.merge, opSortLE, sortPredictions, sort_categories, fusion2]

/-- Witness for C6 on the three-class fusion: the standard selection picks
the unique maximal entry `b`. -/
theorem tiebreak_spec_witness :
    predict_probability_classif fusion3 loader3 =
      Except.ok [("a", 1/4), ("b", 1/2), ("c", 1/4)] ∧
    (∃ (top : String × ℚ) (i : ℕ),
      predictClassif fusion3 loader3 = Except.ok top ∧
      ([(("a" : String), (1:ℚ)/4), ("b", 1/2), ("c", 1/4)])[i]? = some top ∧
      (∀ (j : ℕ) (pe : String × ℚ), j < i →
        ([(("a" : String), (1:ℚ)/4), ("b", 1/2), ("c", 1/4)])[j]? = some pe →
        pe.2 < top.2) ∧
      (∀ e ∈ [(("a" : String), (1:ℚ)/4), ("b", 1/2), ("c", 1/4)],
        e.2 ≤ top.2)) := by
  have hpp : predict_probability_classif fusion3 loader3 =
      Except.ok [("a", 1/4), ("b", 1/2), ("c", 1/4)] := by
    simp [predict_probability_classif, collectClassifVotes, splitVotesClassif,
      classifVote, fusion3, loader3, combine_to_distribution, weigh,
      modelWeight, List.foldlM, List.range, List.range.loop, bind,
      Except.bind, pure, Except.pure]
    norm_num
  exact ⟨hpp, (tiebreak_spec fusion3 loader3 _ hpp (by simp)).1⟩

/-- C3: for a classification fusion with at least two (distinct) canonical
classes, all of them appearing in the objective field's raw category list,
and positive class `P` with threshold `T`: if `predict_probability` assigns
`P` a probability strictly greater than `T`, `predict_operating` returns
`P`'s entry; otherwise it returns an entry for a class other than `P` that
ranks no worse than every other non-`P` entry — strictly higher probability,
or equal probability and an objective-raw-category position no later. -/
theorem predict_operating_spec (F : Fusion) (loader : String → Member)
    (P : String) (T : ℚ) (out : List (String × ℚ))
    (hout : predict_probability_classif F loader = Except.ok out)
    (hP : P ∈ F.class_names)
    (hnd : F.class_names.Nodup)
    (hlen2 : 2 ≤ F.class_names.length)
    (hobj : ∀ c ∈ F.class_names, c ∈ F.objective_categories) :
    ∃ pP, out[F.class_names.indexOf P]? = some pP ∧ pP.1 = P ∧
      ∃ r, predict_operating F loader P T = Except.ok r ∧
        (T < pP.2 → r = pP) ∧
        (¬ T < pP.2 → r.1 ≠ P ∧ r ∈ out ∧
          ∀ e ∈ out, e.1 ≠ P →
            e.2 < r.2 ∨ (e.2 = r.2 ∧
              F.objective_categories.indexOf r.1 ≤
                F.objective_categories.indexOf e.1)) := by
  obtain ⟨hshape, hlen⟩ := predict_probability_classif_shape F loader out hout
  have hposb : F.class_names.indexOf P < F.class_names.length :=
    List.indexOf_lt_length.mpr hP
  have hposo : F.class_names.indexOf P < out.length := by
    rw [hlen]
    exact hposb
  have hget : out[F.class_names.indexOf P]? =
      some out[F.class_names.indexOf P] := List.getElem?_eq_getElem hposo
  have hfst : out[F.class_names.indexOf P].1 = P := by
    have h1 : (out.map Prod.fst)[F.class_names.indexOf P]? =
        some out[F.class_names.indexOf P].1 := by
      rw [List.getElem?_map, List.getElem?_eq_getElem hposo]
      rfl
    rw [hshape, List.getElem?_eq_getElem hposb, List.getElem_indexOf hposb]
      at h1
    have := Option.some.inj h1
    exact this.symm
  refine ⟨out[F.class_names.indexOf P], hget, hfst, ?_⟩
  have hopen : predict_operating F loader P T =
      (if T < out[F.class_names.indexOf P].2 then
        Except.ok (out[F.class_names.indexOf P])
      else
        (match out.mergeSort (opSortLE F) with
        | [] => Except.error PyErr.otherError
        | [a] => if a.1 = P then Except.error PyErr.otherError
                 else Except.ok a
        | a :: b :: _ => if a.1 = P then Except.ok b else Except.ok a)) := by
    simp only [predict_operating, hP, not_true_eq_false, if_false, hout,
      bind, Except.bind, hget, gt_iff_lt]
    by_cases hT : T < out[F.class_names.indexOf P].2
    · simp only [if_pos hT, pure, Except.pure]
    · simp only [if_neg hT]
      match hs : out.mergeSort (opSortLE F) with
      | [] => rfl
      | [a] =>
        by_cases ha : a.1 = P
        · simp only [if_pos ha]
        · simp only [if_neg ha, pure, Except.pure]
      | a :: b :: rest =>
        by_cases ha : a.1 = P
        · simp only [if_pos ha, pure, Except.pure]
        · simp only [if_neg ha, pure, Except.pure]
  by_cases hT : T < out[F.class_names.indexOf P].2
  · rw [if_pos hT] at hopen
    exact ⟨out[F.class_names.indexOf P], hopen, fun _ => rfl,
      fun hc => absurd hT hc⟩
  · rw [if_neg hT] at hopen
    have hperm : List.Perm (out.mergeSort (opSortLE F)) out :=
      List.mergeSort_perm out (opSortLE F)
    have hpw := List.sorted_mergeSort (opSortLE_trans F) (opSortLE_total F) out
    have hsortlen : (out.mergeSort (opSortLE F)).length = out.length :=
      List.length_mergeSort out
    have hmapnd : (out.map Prod.fst).Nodup := by
      rw [hshape]
      exact hnd
    have hsortnd : ((out.mergeSort (opSortLE F)).map Prod.fst).Nodup :=
      ((hperm.map Prod.fst).nodup_iff).mpr hmapnd
    match hs : out.mergeSort (opSortLE F) with
    | [] =>
      rw [hs] at hsortlen
      simp only [List.length_nil] at hsortlen
      rw [hlen] at hsortlen
      omega
    | [a] =>
      rw [hs] at hsortlen
      simp only [List.length_cons, List.length_nil] at hsortlen
      rw [hlen] at hsortlen
      omega
    | a :: b :: rest =>
      rw [hs] at hopen hperm hpw hsortnd
      have hmemout : ∀ x ∈ a :: b :: rest, x ∈ out :=
        fun x hx => hperm.subset hx
      have hab : a.1 ≠ b.1 := by
        simp only [List.map_cons, List.nodup_cons, List.mem_cons,
          List.mem_map] at hsortnd
        exact fun he => hsortnd.1 (Or.inl he) |>.elim
      have hopen2 : predict_operating F loader P T =
          (if a.1 = P then Except.ok b else Except.ok a) := hopen
      by_cases ha : a.1 = P
      · rw [if_pos ha] at hopen2
        refine ⟨b, hopen2, fun hc => absurd hc hT, fun _ => ?_⟩
        refine ⟨?_, hmemout b (by simp), ?_⟩
        · intro hbp
          exact hab (ha.trans hbp.symm)
        · intro e he hep
          have hesort : e ∈ a :: b :: rest := (hperm.mem_iff).mpr he
          rcases List.mem_cons.mp hesort with hea | hebc
        -- e cannot be a since a's category is P
          · rw [hea] at hep
            rw [ha] at hep
            exact absurd rfl hep
          · rcases List.mem_cons.mp hebc with heb | herest
            · rw [heb]
              exact Or.inr ⟨rfl, le_refl _⟩
            · have hpwtail := List.pairwise_cons.mp hpw
              have hpwb := List.pairwise_cons.mp hpwtail.2
              have hle : opSortLE F b e = true := hpwb.1 e herest
              rw [opSortLE_iff] at hle
              rcases hle with h2 | ⟨h2, h3⟩
              · exact Or.inl h2
              · exact Or.inr ⟨h2.symm, h3⟩
      · rw [if_neg ha] at hopen2
        refine ⟨a, hopen2, fun hc => absurd hc hT, fun _ => ?_⟩
        refine ⟨ha, hmemout a (by simp), ?_⟩
        intro e he hep
        have hesort : e ∈ a :: b :: rest := (hperm.mem_iff).mpr he
        rcases List.mem_cons.mp hesort with hea | hebc
        · rw [hea]
          exact Or.inr ⟨rfl, le_refl _⟩
        · have hpwhead := List.pairwise_cons.mp hpw
          have hle : opSortLE F a e = true := hpwhead.1 e hebc
          rw [opSortLE_iff] at hle
          rcases hle with h2 | ⟨h2, h3⟩
          · exact Or.inl h2
          · exact Or.inr ⟨h2.symm, h3⟩

/-- Witness for C3 on the three-class fusion with positive class `b` and
threshold 1: the threshold is not met, so the best non-`b` entry wins. -/
theorem predict_operating_spec_witness :
    predict_probability_classif fusion3 loader3 =
      Except.ok [("a", 1/4), ("b", 1/2), ("c", 1/4)] ∧
    (∃ pP, ([(("a" : String), (1:ℚ)/4), ("b", 1/2),
        ("c", 1/4)])[fusion3.class_names.indexOf "b"]? = some pP ∧
      pP.1 = "b" ∧
      ∃ r, predict_operating fusion3 loader3 "b" 1 = Except.ok r ∧
        ((1 : ℚ) < pP.2 → r = pP) ∧
        (¬ (1 : ℚ) < pP.2 → r.1 ≠ "b" ∧
          r ∈ [(("a" : String), (1:ℚ)/4), ("b", 1/2), ("c", 1/4)] ∧
          ∀ e ∈ [(("a" : String), (1:ℚ)/4), ("b", 1/2), ("c", 1/4)],
            e.1 ≠ "b" →
            e.2 < r.2 ∨ (e.2 = r.2 ∧
              fusion3.objective_categories.indexOf r.1 ≤
                fusion3.objective_categories.indexOf e.1))) := by
  have hpp : predict_probability_classif fusion3 loader3 =
      Except.ok [("a", 1/4), ("b", 1/2), ("c", 1/4)] := by
    simp [predict_probability_classif, collectClassifVotes, splitVotesClassif,
      classifVote, fusion3, loader3, combine_to_distribution, weigh,
      modelWeight, List.foldlM, List.range, List.range.loop, bind,
      Except.bind, pure, Except.pure]
    norm_num
  exact ⟨hpp, predict_operating_spec fusion3 loader3 "b" 1 _ hpp
    (by decide) (by decide) (by decide) (by decide)⟩

end BigMLFusion
